import Mathlib

/-!
Verification development for the radial layout engine of the finanzhaus
repository (`ForceLayoutService`, plus the focus-mode layout of
`AppComponent`).

Modelling conventions:
* Angles are represented in units of π: a stored value `a : ℚ` stands for
  the radian angle `a * π`.  Every angle the sector phase of the source
  manipulates is a rational multiple of π (the full circle `2 * Math.PI`,
  the start angle `-Math.PI / 2`, the minimum sibling angle
  `25 * Math.PI / 180`, the 90% allowance factor, and divisions by child
  counts and integer weights), so this representation is exact; since
  π > 0, all comparisons performed by the source coincide with the
  rational comparisons performed here.
* Positions are real numbers; `Real.cos (a * Real.pi)` is the cosine the
  source computes for a stored angle `a`.
* TypeScript in-place mutation of the layout tree becomes functional
  tree rebuilding; the flat `layoutNodes` array (pushed in depth-first
  preorder by `buildNode`) becomes a preorder flattening.
-/

/-- Input taxonomy node (`Node` of `data.service`); only the fields the
layout engine reads are kept: `id` and the (possibly empty) child list. -/
inductive Node where
| mk : String → List Node → Node

def Node.id : Node → String
| .mk i _ => i

def Node.children : Node → List Node
| .mk _ cs => cs

/-- Layout-tree node data for the sector phases, mirroring the fields of
`LayoutNode` that `buildLayoutTree`, `analyzeSubtrees` and the sector
assignment read or write.  `sectorStart`, `sectorEnd`, `sectorCenter`
are in units of π. -/
structure LND where
  id : String
  level : Nat
  parentId : Option String
  descendantCount : Nat
  maxDepth : Nat
  weight : Nat
  sectorStart : ℚ
  sectorEnd : ℚ
  sectorCenter : ℚ
deriving Repr, DecidableEq

/-- The visible layout tree: one node's data plus its visible children,
in source child order. -/
inductive LTree where
| node : LND → List LTree → LTree

def LTree.data : LTree → LND
| .node d _ => d

def LTree.children : LTree → List LTree
| .node _ cs => cs

/-- Configuration constant `MIN_ANGLE_BETWEEN_SIBLINGS` (25 degrees)
converted to radians, in units of π: `(25 * π / 180) / π = 25 / 180`. -/
def minAnglePerChild : ℚ := 25 / 180

-- ============================================================
-- PHASE 1: buildLayoutTree (`buildNode` inner function)
-- ============================================================

mutual

/-- `buildNode` of `buildLayoutTree`: constructs a `LayoutNode` for `n` at
`level` with parent `parentId`; children are included iff
`level < 1 || expandedIds.has(node.id)`.  Fields are initialised exactly
as the source object literal (sector `[0, 2π]`, counts 0). -/
def buildNode (expandedIds : List String) : Node → Nat → Option String → LTree
| .mk nid ncs, level, parentId =>
  let shouldShowChildren := level < 1 || expandedIds.contains nid
  LTree.node
    { id := nid, level := level, parentId := parentId,
      descendantCount := 0, maxDepth := 0, weight := 0,
      sectorStart := 0, sectorEnd := 2, sectorCenter := 0 }
    (if shouldShowChildren then buildChildren expandedIds ncs (level + 1) nid else [])

def buildChildren (expandedIds : List String) : List Node → Nat → String → List LTree
| [], _, _ => []
| c :: cs, level, pid =>
  buildNode expandedIds c level (some pid) :: buildChildren expandedIds cs level pid

end

/-- `buildLayoutTree(rootNode, expandedIds)`: root built at level 0 with no
parent. -/
def buildLayoutTree (rootNode : Node) (expandedIds : List String) : LTree :=
  buildNode expandedIds rootNode 0 none

-- ============================================================
-- PHASE 2: analyzeSubtrees
-- ============================================================

mutual

/-- The recursive `analyze` closure of `analyzeSubtrees`: a leaf gets
`descendantCount = 0`, `maxDepth = 0`, `weight = 1`; an internal node
accumulates `totalDescendants += 1 + child.descendantCount` and
`maxChildDepth = max(maxChildDepth, childDepth + 1)` over its (already
analyzed) children, then sets
`weight = totalDescendants + maxChildDepth * 2 + 1`. -/
def analyzeNode : LTree → LTree
| .node d [] => .node { d with descendantCount := 0, maxDepth := 0, weight := 1 } []
| .node d (c :: cs) =>
  let cs' := analyzeList (c :: cs)
  let totalDescendants := cs'.foldl (fun acc t => acc + (1 + t.data.descendantCount)) 0
  let maxChildDepth := cs'.foldl (fun acc t => max acc (t.data.maxDepth + 1)) 0
  .node { d with descendantCount := totalDescendants, maxDepth := maxChildDepth,
                 weight := totalDescendants + maxChildDepth * 2 + 1 } cs'

def analyzeList : List LTree → List LTree
| [] => []
| t :: ts => analyzeNode t :: analyzeList ts

end

-- ============================================================
-- PHASE 3: assignSectors
-- ============================================================

/-- The indexed `forEach` loop of `assignLevel1Sectors`: the `i`-th child
gets sector `[startAngle + i * anglePerChild, startAngle + (i+1) * anglePerChild]`
with `startAngle = -π/2`, in units of π. -/
def assignLevel1SectorsGo (anglePerChild : ℚ) : Nat → List LTree → List LTree
| _, [] => []
| i, t :: ts =>
  LTree.node
    { t.data with
      sectorStart := -(1/2) + i * anglePerChild,
      sectorEnd := -(1/2) + ((i : ℚ) + 1) * anglePerChild,
      sectorCenter := -(1/2) + ((i : ℚ) + 1/2) * anglePerChild } t.children
    :: assignLevel1SectorsGo anglePerChild (i + 1) ts

/-- `assignLevel1Sectors`: the root's children get fixed equal sectors of
`2π / n` starting at `-π/2` (top), in source order, independent of the
expanded set. -/
def assignLevel1Sectors (children : List LTree) : List LTree :=
  let anglePerChild : ℚ := 2 / (children.length : ℚ)
  assignLevel1SectorsGo anglePerChild 0 children

/-- The `for (const child of children)` loop of `assignChildSectors`,
restricted to the sector arithmetic: from the running `currentAngle`,
each child of weight `w` receives
`actualAngle = max((w / totalWeight) * availableAngle, minAnglePerChild)`
and the sector triple `(currentAngle, currentAngle + actualAngle,
currentAngle + actualAngle / 2)`. -/
def sectorSharesGo (totalWeight availableAngle : ℚ) : ℚ → List ℚ → List (ℚ × ℚ × ℚ)
| _, [] => []
| currentAngle, w :: ws =>
  let childAngle := (w / totalWeight) * availableAngle
  let actualAngle := max childAngle minAnglePerChild
  (currentAngle, currentAngle + actualAngle, currentAngle + actualAngle / 2)
    :: sectorSharesGo totalWeight availableAngle (currentAngle + actualAngle) ws

/-- The parameter computation of `assignChildSectors(parent)`: given the
parent sector `[parentStart, parentEnd]` and the children's weights,
computes `totalWeight`, the 90% `availableAngle` (expanded to
`minAnglePerChild * n` when smaller), the centering `padding`, and the
resulting sector triple of every child in order. -/
def sectorShares (parentStart parentEnd : ℚ) (ws : List ℚ) : List (ℚ × ℚ × ℚ) :=
  match ws with
  | [] => []
  | _ :: _ =>
    let totalWeight := ws.sum
    let availableSector := parentEnd - parentStart
    let availableAngle0 := availableSector * (9/10)
    let minTotalAngle := minAnglePerChild * ws.length
    let availableAngle := if availableAngle0 < minTotalAngle then minTotalAngle else availableAngle0
    let padding := (availableSector - availableAngle) / 2
    sectorSharesGo totalWeight availableAngle (parentStart + padding) ws

mutual

/-- The recursion of `assignChildSectors`: a node whose sector triple has
just been computed is stored and its own children are assigned inside the
new sector. -/
def assignChildSectorsNode (s e c : ℚ) : LTree → LTree
| .node d cs =>
  LTree.node { d with sectorStart := s, sectorEnd := e, sectorCenter := c }
    (assignChildSectorsList (sectorShares s e (cs.map (fun t => (t.data.weight : ℚ)))) cs)

/-- Pairs each child with its sector share from `sectorShares` (the lists
always have equal length) and recurses. -/
def assignChildSectorsList : List (ℚ × ℚ × ℚ) → List LTree → List LTree
| _, [] => []
| [], _ :: _ => []
| sh :: shs, t :: ts =>
  assignChildSectorsNode sh.1 sh.2.1 sh.2.2 t :: assignChildSectorsList shs ts

end

/-- `assignChildSectors(parent)` acting on the parent's sector bounds and
child list. -/
def assignChildSectors (parentStart parentEnd : ℚ) (cs : List LTree) : List LTree :=
  assignChildSectorsList (sectorShares parentStart parentEnd (cs.map (fun t => (t.data.weight : ℚ)))) cs

/-- `assignSectors`: the root keeps the full circle `[0, 2π]` with center 0,
level 1 gets the fixed equal partition, and every level-1 node's subtree
gets the dynamic weight-based assignment. -/
def assignSectors : LTree → LTree
| .node d cs =>
  let d' := { d with sectorStart := 0, sectorEnd := 2, sectorCenter := 0 }
  let l1 := assignLevel1Sectors cs
  .node d' (l1.map fun c =>
    .node c.data (assignChildSectors c.data.sectorStart c.data.sectorEnd c.children))

/-- The sector pipeline run by `initSimulation` before positions are
computed: build, analyze, assign sectors. -/
def sectorPipeline (rootNode : Node) (expandedIds : List String) : LTree :=
  assignSectors (analyzeNode (buildLayoutTree rootNode expandedIds))

/-- Child accessor with the tree itself as fallback (used only to address
concrete nodes of concrete trees). -/
def LTree.child (t : LTree) (i : Nat) : LTree := t.children.getD i t

-- ============================================================
-- General facts about the sector assignment (claim C1)
-- ============================================================

/-- The sector triples `l` are contiguous from `a` to `b`: each triple
starts where the previous one ended and has positive width. -/
def chained : ℚ → List (ℚ × ℚ × ℚ) → ℚ → Prop
| a, [], b => a = b
| a, sh :: rest, b => sh.1 = a ∧ a < sh.2.1 ∧ chained sh.2.1 rest b

/-- Total angle consumed by the per-child loop: each child of weight `w`
takes `max((w / totalWeight) * availableAngle, minAnglePerChild)`. -/
def sumActual (totalWeight availableAngle : ℚ) (ws : List ℚ) : ℚ :=
  (ws.map (fun w => max ((w / totalWeight) * availableAngle) minAnglePerChild)).sum

theorem chained_le : ∀ (l : List (ℚ × ℚ × ℚ)) (a b : ℚ), chained a l b → a ≤ b := by
  intro l
  induction l with
  | nil => intro a b h; exact le_of_eq h
  | cons sh rest ih =>
    intro a b h
    obtain ⟨-, hlt, hrest⟩ := h
    exact le_trans (le_of_lt hlt) (ih _ _ hrest)

theorem chained_mem : ∀ (l : List (ℚ × ℚ × ℚ)) (a b : ℚ), chained a l b →
    ∀ sh ∈ l, a ≤ sh.1 ∧ sh.2.1 ≤ b ∧ sh.1 < sh.2.1 := by
  intro l
  induction l with
  | nil => intro a b _ sh hm; cases hm
  | cons x rest ih =>
    intro a b h sh hm
    obtain ⟨hx, hlt, hrest⟩ := h
    rcases List.mem_cons.mp hm with hm | hm
    · subst hm
      exact ⟨le_of_eq hx.symm, chained_le rest _ _ hrest, hx ▸ hlt⟩
    · obtain ⟨h1, h2, h3⟩ := ih _ _ hrest sh hm
      exact ⟨le_trans (le_of_lt hlt) h1, h2, h3⟩

theorem chained_pairwise : ∀ (l : List (ℚ × ℚ × ℚ)) (a b : ℚ), chained a l b →
    l.Pairwise (fun x y => x.2.1 ≤ y.1) := by
  intro l
  induction l with
  | nil => intro _ _ _; exact List.Pairwise.nil
  | cons x rest ih =>
    intro a b h
    obtain ⟨-, -, hrest⟩ := h
    exact List.Pairwise.cons (fun y hy => (chained_mem rest _ _ hrest y hy).1) (ih _ _ hrest)

theorem minAnglePerChild_pos : 0 < minAnglePerChild := by norm_num [minAnglePerChild]

theorem sectorSharesGo_chained (totalWeight availableAngle : ℚ) :
    ∀ (ws : List ℚ) (cur : ℚ),
      chained cur (sectorSharesGo totalWeight availableAngle cur ws)
        (cur + sumActual totalWeight availableAngle ws) := by
  intro ws
  induction ws with
  | nil => intro cur; simp [sectorSharesGo, chained, sumActual]
  | cons w ws ih =>
    intro cur
    refine ⟨rfl, ?_, ?_⟩
    · have := lt_of_lt_of_le minAnglePerChild_pos
        (le_max_right ((w / totalWeight) * availableAngle) minAnglePerChild)
      linarith
    · have h := ih (cur + max ((w / totalWeight) * availableAngle) minAnglePerChild)
      have harith :
          cur + max ((w / totalWeight) * availableAngle) minAnglePerChild
              + sumActual totalWeight availableAngle ws
            = cur + sumActual totalWeight availableAngle (w :: ws) := by
        simp [sumActual]
        ring
      rw [harith] at h
      exact h

theorem sectorSharesGo_length (totalWeight availableAngle : ℚ) :
    ∀ (ws : List ℚ) (cur : ℚ),
      (sectorSharesGo totalWeight availableAngle cur ws).length = ws.length := by
  intro ws
  induction ws with
  | nil => intro cur; simp [sectorSharesGo]
  | cons w ws ih => intro cur; simp [sectorSharesGo, ih]

theorem sectorShares_length (ps pe : ℚ) (ws : List ℚ) :
    (sectorShares ps pe ws).length = ws.length := by
  cases ws with
  | nil => simp [sectorShares]
  | cons w ws => simp [sectorShares, sectorSharesGo_length]

/-- The triples stored in the children by `assignChildSectorsList` are
exactly the shares handed to it (when enough shares are provided). -/
theorem assignChildSectorsList_triples :
    ∀ (cs : List LTree) (shs : List (ℚ × ℚ × ℚ)), shs.length = cs.length →
      ((assignChildSectorsList shs cs).map
        (fun t => (t.data.sectorStart, t.data.sectorEnd, t.data.sectorCenter))) = shs := by
  intro cs
  induction cs with
  | nil =>
    intro shs h
    cases shs with
    | nil => simp [assignChildSectorsList]
    | cons a b => simp at h
  | cons t ts ih =>
    intro shs h
    cases shs with
    | nil => simp at h
    | cons sh shs =>
      cases t with
      | node d dcs =>
        simp only [assignChildSectorsList, List.map_cons, assignChildSectorsNode, LTree.data]
        refine congrArg₂ _ rfl (ih shs (by simpa using h))

theorem sumActual_no_floor (totalWeight availableAngle : ℚ) :
    ∀ ws : List ℚ, (∀ w ∈ ws, minAnglePerChild ≤ (w / totalWeight) * availableAngle) →
      sumActual totalWeight availableAngle ws = (ws.sum / totalWeight) * availableAngle := by
  intro ws
  induction ws with
  | nil => intro _; simp [sumActual]
  | cons w ws ih =>
    intro h
    have hw := h w (List.mem_cons_self w ws)
    have hrest := fun x hx => h x (List.mem_cons_of_mem w hx)
    simp only [sumActual, List.map_cons, List.sum_cons] at *
    rw [max_eq_left hw, ih hrest]
    ring

/-- Claim C1 (amended).  For every parent sector `[ps, pe]` and child
list: (i) the sectors stored in the children by `assignChildSectors` are
exactly the shares computed by `sectorShares`, in original child order;
(ii) the shares are contiguous (each child's sectorStart is the previous
child's sectorEnd) with positive widths, hence (iii) pairwise disjoint;
(iv) when the parent sector is nonempty, the minimum total fits in the
90% allowance and no child's proportional share is floored to
`minAnglePerChild`, every child sector lies inside the parent sector. -/
theorem assignChildSectors_disjoint_ordered_contained (ps pe : ℚ) (cs : List LTree) :
    ((assignChildSectors ps pe cs).map
        (fun t => (t.data.sectorStart, t.data.sectorEnd, t.data.sectorCenter)))
      = sectorShares ps pe (cs.map (fun t => (t.data.weight : ℚ)))
    ∧ (∃ lo hi, chained lo (sectorShares ps pe (cs.map (fun t => (t.data.weight : ℚ)))) hi)
    ∧ (sectorShares ps pe (cs.map (fun t => (t.data.weight : ℚ)))).Pairwise
        (fun x y => x.2.1 ≤ y.1)
    ∧ (ps ≤ pe →
        minAnglePerChild * ((cs.map (fun t => (t.data.weight : ℚ))).length : ℚ)
            ≤ (pe - ps) * (9/10) →
        (∀ w ∈ cs.map (fun t => (t.data.weight : ℚ)),
          minAnglePerChild ≤ (w / (cs.map (fun t => (t.data.weight : ℚ))).sum)
            * ((pe - ps) * (9/10))) →
        ∀ sh ∈ sectorShares ps pe (cs.map (fun t => (t.data.weight : ℚ))),
          ps ≤ sh.1 ∧ sh.2.1 ≤ pe) := by
  have hchain : ∃ lo hi,
      chained lo (sectorShares ps pe (cs.map (fun t => (t.data.weight : ℚ)))) hi := by
    cases hws : cs.map (fun t => (t.data.weight : ℚ)) with
    | nil => exact ⟨ps, ps, rfl⟩
    | cons w ws =>
      simp only [sectorShares]
      exact ⟨_, _, sectorSharesGo_chained _ _ _ _⟩
  refine ⟨?_, hchain, ?_, ?_⟩
  · exact assignChildSectorsList_triples cs _
      (by rw [sectorShares_length, List.length_map])
  · obtain ⟨lo, hi, hch⟩ := hchain
    exact chained_pairwise _ _ _ hch
  · intro h1 h2 h3 sh hm
    cases hws : cs.map (fun t => (t.data.weight : ℚ)) with
    | nil => rw [hws] at hm; simp [sectorShares] at hm
    | cons w ws =>
      rw [hws] at hm h2 h3
      have htw : (w :: ws).sum ≠ 0 := by
        intro h0
        have := h3 w (List.mem_cons_self w ws)
        rw [h0, div_zero, zero_mul] at this
        exact absurd (lt_of_lt_of_le minAnglePerChild_pos this) (lt_irrefl 0)
      have hnoexp : ¬ ((pe - ps) * (9/10) < minAnglePerChild * ((w :: ws).length : ℚ)) := by
        push_neg
        simpa using h2
      have hsum : sumActual ((w :: ws).sum) ((pe - ps) * (9/10)) (w :: ws)
          = (pe - ps) * (9/10) := by
        rw [sumActual_no_floor _ _ _ h3, div_self htw, one_mul]
      have hch := sectorSharesGo_chained ((w :: ws).sum) ((pe - ps) * (9/10))
        (w :: ws) (ps + ((pe - ps) - (pe - ps) * (9/10)) / 2)
      rw [hsum] at hch
      have hshares : sectorShares ps pe (w :: ws)
          = sectorSharesGo ((w :: ws).sum) ((pe - ps) * (9/10))
              (ps + ((pe - ps) - (pe - ps) * (9/10)) / 2) (w :: ws) := by
        simp only [sectorShares, if_neg hnoexp]
      rw [hshares] at hm
      obtain ⟨ha, hb, -⟩ := chained_mem _ _ _ hch sh hm
      constructor
      · refine le_trans ?_ ha
        linarith
      · refine le_trans hb ?_
        linarith

/-- A bare leaf layout node of weight 1 used to instantiate theorems on a
concrete sibling pair. -/
def wLeaf : LTree := .node ⟨"w", 2, none, 0, 0, 1, 0, 2, 0⟩ []

theorem assignChildSectors_disjoint_ordered_contained_witness :
    ((0 : ℚ) ≤ 1 ∧
      minAnglePerChild * (([wLeaf, wLeaf].map (fun t => (t.data.weight : ℚ))).length : ℚ)
        ≤ ((1 : ℚ) - 0) * (9/10))
    ∧ ((0 : ℚ) ≤ ((sectorShares 0 1 ([wLeaf, wLeaf].map (fun t => (t.data.weight : ℚ)))).getD 0
          (0, 0, 0)).1
        ∧ ((sectorShares 0 1 ([wLeaf, wLeaf].map (fun t => (t.data.weight : ℚ)))).getD 0
          (0, 0, 0)).2.1 ≤ 1) := by
  have hshv : sectorShares 0 1 ([wLeaf, wLeaf].map (fun t => (t.data.weight : ℚ)))
      = [(1/20, 1/2, 11/40), (1/2, 19/20, 29/40)] := by
    norm_num [wLeaf, LTree.data, sectorShares, sectorSharesGo, minAnglePerChild]
  refine ⟨⟨by norm_num, by norm_num [wLeaf, LTree.data, minAnglePerChild]⟩, ?_⟩
  refine (assignChildSectors_disjoint_ordered_contained 0 1 [wLeaf, wLeaf]).2.2.2
    (by norm_num)
    (by norm_num [wLeaf, LTree.data, minAnglePerChild])
    ?_ _ ?_
  · intro w hw
    simp only [wLeaf, LTree.data, List.map_cons, List.map_nil, List.mem_cons,
      List.not_mem_nil, or_false] at hw
    rcases hw with hw | hw <;> rw [hw] <;> norm_num [wLeaf, LTree.data, minAnglePerChild]
  · rw [hshv]
    simp

-- ============================================================
-- Concrete run exhibiting the sector overflow (claim C1)
-- ============================================================

/-- Taxonomy for the overflow run: the root has two level-1 children; the
first one, `a`, has a light child `x` (a leaf, weight 1) and a heavy child
`y` (seven leaf children, weight 10). -/
def cexRoot : Node := Node.mk "r" [Node.mk "a" [Node.mk "x" [], Node.mk "y"
  [Node.mk "l0" [], Node.mk "l1" [], Node.mk "l2" [], Node.mk "l3" [],
   Node.mk "l4" [], Node.mk "l5" [], Node.mk "l6" []]], Node.mk "b" []]

/-- `buildLayoutTree cexRoot ["a", "y"]`, written out. -/
def cexT1 : LTree := (.node ⟨"r", 0, none, 0, 0, 0, 0, 2, 0⟩ [(.node ⟨"a", 1, some "r", 0, 0, 0, 0, 2, 0⟩ [(.node ⟨"x", 2, some "a", 0, 0, 0, 0, 2, 0⟩ []), (.node ⟨"y", 2, some "a", 0, 0, 0, 0, 2, 0⟩ [(.node ⟨"l0", 3, some "y", 0, 0, 0, 0, 2, 0⟩ []), (.node ⟨"l1", 3, some "y", 0, 0, 0, 0, 2, 0⟩ []), (.node ⟨"l2", 3, some "y", 0, 0, 0, 0, 2, 0⟩ []), (.node ⟨"l3", 3, some "y", 0, 0, 0, 0, 2, 0⟩ []), (.node ⟨"l4", 3, some "y", 0, 0, 0, 0, 2, 0⟩ []), (.node ⟨"l5", 3, some "y", 0, 0, 0, 0, 2, 0⟩ []), (.node ⟨"l6", 3, some "y", 0, 0, 0, 0, 2, 0⟩ [])])]), (.node ⟨"b", 1, some "r", 0, 0, 0, 0, 2, 0⟩ [])])

/-- `analyzeNode cexT1`, written out. -/
def cexT2 : LTree := (.node ⟨"r", 0, none, 11, 3, 18, 0, 2, 0⟩ [(.node ⟨"a", 1, some "r", 9, 2, 14, 0, 2, 0⟩ [(.node ⟨"x", 2, some "a", 0, 0, 1, 0, 2, 0⟩ []), (.node ⟨"y", 2, some "a", 7, 1, 10, 0, 2, 0⟩ [(.node ⟨"l0", 3, some "y", 0, 0, 1, 0, 2, 0⟩ []), (.node ⟨"l1", 3, some "y", 0, 0, 1, 0, 2, 0⟩ []), (.node ⟨"l2", 3, some "y", 0, 0, 1, 0, 2, 0⟩ []), (.node ⟨"l3", 3, some "y", 0, 0, 1, 0, 2, 0⟩ []), (.node ⟨"l4", 3, some "y", 0, 0, 1, 0, 2, 0⟩ []), (.node ⟨"l5", 3, some "y", 0, 0, 1, 0, 2, 0⟩ []), (.node ⟨"l6", 3, some "y", 0, 0, 1, 0, 2, 0⟩ [])])]), (.node ⟨"b", 1, some "r", 0, 0, 1, 0, 2, 0⟩ [])])

/-- `assignSectors cexT2`, written out (angles in units of π). -/
def cexT3 : LTree := (.node ⟨"r", 0, none, 11, 3, 18, 0, 2, 0⟩ [(.node ⟨"a", 1, some "r", 9, 2, 14, -1/2, 1/2, 0⟩ [(.node ⟨"x", 2, some "a", 0, 0, 1, -9/20, -14/45, -137/360⟩ []), (.node ⟨"y", 2, some "a", 7, 1, 10, -14/45, 251/495, 97/990⟩ [(.node ⟨"l0", 3, some "y", 0, 0, 1, -1537/3960, -329/1320, -631/1980⟩ []), (.node ⟨"l1", 3, some "y", 0, 0, 1, -329/1320, -437/3960, -89/495⟩ []), (.node ⟨"l2", 3, some "y", 0, 0, 1, -437/3960, 113/3960, -9/220⟩ []), (.node ⟨"l3", 3, some "y", 0, 0, 1, 113/3960, 221/1320, 97/990⟩ []), (.node ⟨"l4", 3, some "y", 0, 0, 1, 221/1320, 1213/3960, 469/1980⟩ []), (.node ⟨"l5", 3, some "y", 0, 0, 1, 1213/3960, 1763/3960, 62/165⟩ []), (.node ⟨"l6", 3, some "y", 0, 0, 1, 1763/3960, 257/440, 1019/1980⟩ [])])]), (.node ⟨"b", 1, some "r", 0, 0, 1, 1/2, 3/2, 1⟩ [])])

theorem cexBuild_eq : buildLayoutTree cexRoot ["a", "y"] = cexT1 := by
  simp [cexRoot, cexT1, buildLayoutTree, buildNode, buildChildren]

theorem cexAnalyze_eq : analyzeNode cexT1 = cexT2 := by
  simp [cexT1, cexT2, analyzeNode, analyzeList, LTree.data]

set_option maxHeartbeats 4000000 in
theorem cexSectors_eq : assignSectors cexT2 = cexT3 := by
  simp [cexT2, cexT3, assignSectors, assignLevel1Sectors, assignLevel1SectorsGo,
    assignChildSectors, assignChildSectorsNode, assignChildSectorsList, sectorShares,
    sectorSharesGo, minAnglePerChild, LTree.data, LTree.children]
  norm_num

theorem cexPipeline_eq : sectorPipeline cexRoot ["a", "y"] = cexT3 := by
  rw [sectorPipeline, cexBuild_eq, cexAnalyze_eq, cexSectors_eq]

/-- Claim C1 (counterexample).  On the concrete taxonomy `cexRoot` with
`a` and `y` expanded, level-1 node `a` has sector `[-π/2, π/2]`, its first
child `x` is floored to the 25° minimum while its second child `y` keeps
its proportional share, and `y`'s sector ends at `(251/495)π > π/2`:
the union of the children's sectors is NOT contained in the parent's
sector, refuting the claim in exactly the mixed-floor case it asserts. -/
theorem assignChildSectors_overflow_counterexample :
    ((sectorPipeline cexRoot ["a", "y"]).child 0).data.sectorEnd = 1/2
    ∧ (((sectorPipeline cexRoot ["a", "y"]).child 0).child 0).data.sectorEnd
        - (((sectorPipeline cexRoot ["a", "y"]).child 0).child 0).data.sectorStart
        = minAnglePerChild
    ∧ (((sectorPipeline cexRoot ["a", "y"]).child 0).child 1).data.sectorEnd
        - (((sectorPipeline cexRoot ["a", "y"]).child 0).child 1).data.sectorStart
        > minAnglePerChild
    ∧ (((sectorPipeline cexRoot ["a", "y"]).child 0).child 1).data.sectorEnd = 251/495
    ∧ ¬ ((((sectorPipeline cexRoot ["a", "y"]).child 0).child 1).data.sectorEnd
          ≤ ((sectorPipeline cexRoot ["a", "y"]).child 0).data.sectorEnd) := by
  rw [cexPipeline_eq]
  refine ⟨?_, ?_, ?_, ?_, ?_⟩ <;>
    norm_num [cexT3, LTree.child, LTree.children, LTree.data, minAnglePerChild, List.getD]

-- ============================================================
-- Subtree analysis is correct (claim C7)
-- ============================================================

/-- The property claimed of one analyzed node: a leaf has
`descendantCount = 0`, `maxDepth = 0`, `weight = 1`; an internal node has
`descendantCount = Σ (1 + child.descendantCount)`,
`maxDepth = 1 + max child.maxDepth` and
`weight = descendantCount + 2 * maxDepth + 1`. -/
def AnalyzedData (d : LND) (cs : List LTree) : Prop :=
  match cs with
  | [] => d.descendantCount = 0 ∧ d.maxDepth = 0 ∧ d.weight = 1
  | _ :: _ =>
      d.descendantCount = (cs.map (fun c => 1 + c.data.descendantCount)).sum
    ∧ d.maxDepth = 1 + (cs.map (fun c => c.data.maxDepth)).foldr max 0
    ∧ d.weight = d.descendantCount + 2 * d.maxDepth + 1

mutual

/-- Every node of the tree satisfies `AnalyzedData`. -/
def Analyzed : LTree → Prop
| .node d cs => AnalyzedData d cs ∧ AnalyzedForest cs

def AnalyzedForest : List LTree → Prop
| [] => True
| c :: cs => Analyzed c ∧ AnalyzedForest cs

end

theorem foldl_add_sum (f : LTree → Nat) :
    ∀ (l : List LTree) (a : Nat), l.foldl (fun acc t => acc + f t) a = a + (l.map f).sum := by
  intro l
  induction l with
  | nil => intro a; simp
  | cons c cs ih => intro a; simp [List.foldl_cons, ih]; omega

theorem foldl_max_eq (g : LTree → Nat) :
    ∀ (l : List LTree) (a : Nat),
      l.foldl (fun acc t => max acc (g t + 1)) a
        = max a ((l.map (fun t => g t + 1)).foldr max 0) := by
  intro l
  induction l with
  | nil => intro a; simp
  | cons c cs ih =>
    intro a
    simp only [List.foldl_cons, List.map_cons, List.foldr_cons, ih]
    omega

theorem foldr_max_succ (g : LTree → Nat) :
    ∀ (l : List LTree), l ≠ [] →
      (l.map (fun t => g t + 1)).foldr max 0 = ((l.map g).foldr max 0) + 1 := by
  intro l
  induction l with
  | nil => intro h; exact absurd rfl h
  | cons c cs ih =>
    intro _
    cases cs with
    | nil => simp
    | cons c2 cs2 =>
      simp only [List.map_cons, List.foldr_cons] at *
      rw [ih (by simp)]
      omega

mutual

theorem analyzedAuxNode : ∀ t : LTree, Analyzed (analyzeNode t)
| .node d [] => by
  simp only [analyzeNode, Analyzed, AnalyzedForest]
  exact ⟨⟨rfl, rfl, rfl⟩, trivial⟩
| .node d (c :: cs) => by
  have hforest := analyzedAuxForest (c :: cs)
  simp only [analyzeNode, Analyzed]
  refine ⟨?_, hforest⟩
  simp only [AnalyzedData, analyzeList]
  refine ⟨?_, ?_, ?_⟩
  · rw [foldl_add_sum (fun t => 1 + t.data.descendantCount) (analyzeNode c :: analyzeList cs) 0]
    simp
  · rw [foldl_max_eq (fun t => t.data.maxDepth) (analyzeNode c :: analyzeList cs) 0,
        foldr_max_succ (fun t => t.data.maxDepth) _ (by simp)]
    omega
  · omega

theorem analyzedAuxForest : ∀ ts : List LTree, AnalyzedForest (analyzeList ts)
| [] => by simp [analyzeList, AnalyzedForest]
| t :: ts => by
  simp only [analyzeList, AnalyzedForest]
  exact ⟨analyzedAuxNode t, analyzedAuxForest ts⟩

end

/-- Claim C7.  After subtree analysis, every node of the resulting tree
satisfies the claimed equations: a leaf has `descendantCount = 0`,
`maxDepth = 0`, `weight = 1`; an internal node has `descendantCount =
Σ (1 + child.descendantCount)`, `maxDepth = 1 + max child.maxDepth`, and
`weight = descendantCount + 2 * maxDepth + 1`. -/
theorem analyzeSubtrees_correct (t : LTree) : Analyzed (analyzeNode t) :=
  analyzedAuxNode t

-- ============================================================
-- Level-1 sectors are fixed and expansion-invariant (claim C4)
-- ============================================================

/-- The id and sector bounds of every level-1 node (child of the root) of
a layout tree. -/
def level1SectorTriples (t : LTree) : List (String × ℚ × ℚ) :=
  t.children.map fun c => (c.data.id, c.data.sectorStart, c.data.sectorEnd)

/-- Modelled from the spec's sector formula (for comparison with the
code): the `i`-th of `n` level-1 children receives the fixed sector
`[-π/2 + i * (2π/n), -π/2 + (i+1) * (2π/n)]`, in units of π. -/
def specLevel1Go (anglePerChild : ℚ) : Nat → List String → List (String × ℚ × ℚ)
| _, [] => []
| i, s :: ss =>
  (s, -(1/2) + i * anglePerChild, -(1/2) + ((i : ℚ) + 1) * anglePerChild)
    :: specLevel1Go anglePerChild (i + 1) ss

/-- The spec's fixed equal partition of the full circle among the root's
children, starting at the top, in source order. -/
def specLevel1Sectors (rootNode : Node) : List (String × ℚ × ℚ) :=
  specLevel1Go (2 / (rootNode.children.length : ℚ)) 0 (rootNode.children.map Node.id)

theorem buildChildren_ids (e : List String) :
    ∀ (ns : List Node) (lvl : Nat) (pid : String),
      (buildChildren e ns lvl pid).map (fun t => t.data.id) = ns.map Node.id := by
  intro ns
  induction ns with
  | nil => intro lvl pid; simp [buildChildren]
  | cons n ns ih =>
    intro lvl pid
    cases n with
    | mk nid ncs =>
      simp only [buildChildren, List.map_cons]
      rw [ih]
      simp [buildNode, LTree.data, Node.id]

theorem analyzeNode_id : ∀ t : LTree, (analyzeNode t).data.id = t.data.id := by
  intro t
  cases t with
  | node d cs =>
    cases cs with
    | nil => simp [analyzeNode, LTree.data]
    | cons c cs => simp [analyzeNode, LTree.data]

theorem analyzeList_ids :
    ∀ ts : List LTree, (analyzeList ts).map (fun t => t.data.id) = ts.map (fun t => t.data.id) := by
  intro ts
  induction ts with
  | nil => simp [analyzeList]
  | cons t ts ih =>
    simp only [analyzeList, List.map_cons]
    rw [ih]
    congr 1
    exact analyzeNode_id t

theorem analyzeList_length : ∀ ts : List LTree, (analyzeList ts).length = ts.length := by
  intro ts
  induction ts with
  | nil => simp [analyzeList]
  | cons t ts ih => simp [analyzeList, ih]

theorem analyzeNode_children : ∀ t : LTree, (analyzeNode t).children = analyzeList t.children := by
  intro t
  cases t with
  | node d cs =>
    cases cs with
    | nil => simp [analyzeNode, analyzeList, LTree.children]
    | cons c cs => simp [analyzeNode, LTree.children]

theorem assignLevel1SectorsGo_triples (apc : ℚ) :
    ∀ (l : List LTree) (i : Nat),
      ((assignLevel1SectorsGo apc i l).map
          (fun c => (c.data.id, c.data.sectorStart, c.data.sectorEnd)))
        = specLevel1Go apc i (l.map (fun t => t.data.id)) := by
  intro l
  induction l with
  | nil => intro i; simp [assignLevel1SectorsGo, specLevel1Go]
  | cons t ts ih =>
    intro i
    simp only [assignLevel1SectorsGo, specLevel1Go, List.map_cons]
    rw [ih]
    simp [LTree.data]

theorem triples_map_assign (l : List LTree) :
    ((l.map (fun c => LTree.node c.data
        (assignChildSectors c.data.sectorStart c.data.sectorEnd c.children))).map
      (fun c => (c.data.id, c.data.sectorStart, c.data.sectorEnd)))
    = l.map (fun c => (c.data.id, c.data.sectorStart, c.data.sectorEnd)) := by
  induction l with
  | nil => simp
  | cons x xs ih =>
    cases x
    simp only [List.map_cons]
    exact congrArg₂ List.cons rfl ih

theorem assignSectors_triples (t : LTree) :
    level1SectorTriples (assignSectors t)
      = specLevel1Go (2 / (t.children.length : ℚ)) 0 (t.children.map (fun c => c.data.id)) := by
  cases t with
  | node d cs =>
    show ((assignLevel1SectorsGo (2 / (cs.length : ℚ)) 0 cs).map
        (fun c => LTree.node c.data
          (assignChildSectors c.data.sectorStart c.data.sectorEnd c.children))).map
        (fun c => (c.data.id, c.data.sectorStart, c.data.sectorEnd))
      = specLevel1Go (2 / (cs.length : ℚ)) 0 (cs.map (fun c => c.data.id))
    rw [triples_map_assign, assignLevel1SectorsGo_triples]

theorem buildLayoutTree_children (rid : String) (rcs : List Node) (e : List String) :
    (buildLayoutTree (Node.mk rid rcs) e).children = buildChildren e rcs 1 rid := by
  simp [buildLayoutTree, buildNode, LTree.children]

theorem buildChildren_length (e : List String) (ns : List Node) (lvl : Nat) (pid : String) :
    (buildChildren e ns lvl pid).length = ns.length := by
  have := congrArg List.length (buildChildren_ids e ns lvl pid)
  simpa using this

/-- Claim C4.  For every root and every expanded set, the level-1 children
of the built, analyzed and sector-assigned tree carry exactly the fixed
equal sectors of the spec formula (the `i`-th of `n` children gets
`[-π/2 + i * (2π/n), -π/2 + (i+1) * (2π/n)]`, in source order) — the
formula does not depend on the expanded set, so the level-1 boundaries are
identical across any two expanded sets, in particular across sets that
differ only in level-2-or-deeper ids. -/
theorem level1Sectors_fixed_and_invariant (rootNode : Node) (e1 e2 : List String) :
    level1SectorTriples (sectorPipeline rootNode e1) = specLevel1Sectors rootNode
    ∧ level1SectorTriples (sectorPipeline rootNode e1)
        = level1SectorTriples (sectorPipeline rootNode e2) := by
  have key : ∀ e : List String,
      level1SectorTriples (sectorPipeline rootNode e) = specLevel1Sectors rootNode := by
    intro e
    cases rootNode with
    | mk rid rcs =>
      rw [sectorPipeline, assignSectors_triples, analyzeNode_children, buildLayoutTree_children,
        analyzeList_ids, analyzeList_length, buildChildren_ids, buildChildren_length]
      simp [specLevel1Sectors, Node.children]
  exact ⟨key e1, (key e1).trans (key e2).symm⟩

-- ============================================================
-- PHASE 4: calculateIdealPositions
-- ============================================================

/-- `CONFIG.BASE_DISTANCES[level] || CONFIG.BASE_DISTANCES[4]`. -/
def BASE_DISTANCES : Nat → ℚ
| 1 => 350
| 2 => 300
| 3 => 100
| 4 => 100
| _ => 100

/-- `CONFIG.DISTANCE_PER_CHILD`. -/
def DISTANCE_PER_CHILD : ℚ := 40

/-- `Math.ceil(Math.sqrt(count))` on a natural number. -/
def ceilSqrt (n : Nat) : Nat :=
  if Nat.sqrt n * Nat.sqrt n = n then Nat.sqrt n else Nat.sqrt n + 1

/-- The ideal-position data `calculateChildPositions` computes for one
node: `idealAngle` (units of π), `idealRadius` (a rational number of
pixels), the ideal coordinates, and the `ring` (row) index. -/
structure PosCtx where
  idealAngle : ℚ
  idealRadius : ℚ
  idealX : ℝ
  idealY : ℝ
  ring : Nat

/-- `positionChildrenRadial` (levels 1 and 2): every child sits at
`distance = baseDistance + childCount * DISTANCE_PER_CHILD` from the
parent's ideal position, in the direction of its own `sectorCenter`. -/
noncomputable def positionChildrenRadial (p : PosCtx) (cds : List LND) (level : Nat) : List PosCtx :=
  let baseDistance := BASE_DISTANCES level
  let dynamicDistance := baseDistance + (cds.length : ℚ) * DISTANCE_PER_CHILD
  cds.map fun cd =>
    { idealAngle := cd.sectorCenter,
      idealRadius := dynamicDistance,
      idealX := p.idealX + Real.cos ((cd.sectorCenter : ℝ) * Real.pi) * (dynamicDistance : ℝ),
      idealY := p.idealY + Real.sin ((cd.sectorCenter : ℝ) * Real.pi) * (dynamicDistance : ℝ),
      ring := 0 }

/-- The inner `for (col …)` loop of `positionChildrenFan`: place one row
of children at `distanceFromParent`, sweeping `availableAngle` from
`startAngle` in steps of `angleStep` (a single node sits at the sector
center). -/
noncomputable def fanRowGo (p : PosCtx) (single : Bool) (sectorCenter startAngle angleStep dist : ℚ)
    (row : Nat) : Nat → List LND → List PosCtx
| _, [] => []
| col, _ :: rest =>
  let angle := if single then sectorCenter else startAngle + (col : ℚ) * angleStep
  { idealAngle := angle,
    idealRadius := p.idealRadius + dist,
    idealX := p.idealX + Real.cos ((angle : ℝ) * Real.pi) * (dist : ℝ),
    idealY := p.idealY + Real.sin ((angle : ℝ) * Real.pi) * (dist : ℝ),
    ring := row } :: fanRowGo p single sectorCenter startAngle angleStep dist row (col + 1) rest

/-- The `for (row …)` loop of `positionChildrenFan`: rows of at most
`nodesPerRow` children at increasing distance from the parent
(`baseDistance + row * rowSpacing`), each row spanning 70% of the
parent's sector. -/
noncomputable def positionChildrenFanRows (p : PosCtx) (sectorCenter sectorSpan baseDistance : ℚ)
    (nodesPerRow : Nat) : Nat → List LND → List PosCtx
| _, [] => []
| row, a :: rest =>
  let nodesInThisRow := min nodesPerRow (a :: rest).length
  let distanceFromParent := baseDistance + (row : ℚ) * 70
  let availableAngle := sectorSpan * (7/10)
  let angleStep : ℚ := if nodesInThisRow > 1 then availableAngle / ((nodesInThisRow : ℚ) - 1) else 0
  let startAngle := sectorCenter - availableAngle / 2
  fanRowGo p (nodesInThisRow == 1) sectorCenter startAngle angleStep distanceFromParent row 0
      ((a :: rest).take nodesInThisRow)
    ++ (if h : 0 < nodesInThisRow then
          positionChildrenFanRows p sectorCenter sectorSpan baseDistance nodesPerRow (row + 1)
            ((a :: rest).drop nodesInThisRow)
        else [])
termination_by row rem => rem.length
decreasing_by
  simp only [List.length_drop]
  simp only [List.length_cons] at *
  omega

/-- `positionChildrenFan` (levels 3+): fan layout behind the parent,
`nodesPerRow = max(3, min(5, ceil(sqrt(count))))` children per row; the
`0 < nodesInThisRow` guard inside the row loop always holds there since
`nodesPerRow ≥ 3`. -/
noncomputable def positionChildrenFan (p : PosCtx) (pd : LND) (cds : List LND) (level : Nat) : List PosCtx :=
  let sectorCenter := pd.sectorCenter
  let sectorSpan := |pd.sectorEnd - pd.sectorStart|
  let baseDistance := BASE_DISTANCES level
  let nodesPerRow := max 3 (min 5 (ceilSqrt cds.length))
  positionChildrenFanRows p sectorCenter sectorSpan baseDistance nodesPerRow 0 cds

/-- `calculateChildPositions`: children of level ≤ 2 are placed radially,
deeper ones with the fan layout. -/
noncomputable def calcChildCtxs (p : PosCtx) (pd : LND) (cds : List LND) : List PosCtx :=
  let level := pd.level + 1
  if level ≤ 2 then positionChildrenRadial p cds level
  else positionChildrenFan p pd cds level

/-- The full runtime record of a `LayoutNode` once ideal positions exist:
structure data, sector, ideal position, and the mutable simulation state
(`x`, `y`, and the d3 fixing fields `fx`, `fy`). -/
structure PD where
  id : String
  level : Nat
  parentId : Option String
  sectorStart : ℚ
  sectorEnd : ℚ
  sectorCenter : ℚ
  idealAngle : ℚ
  idealRadius : ℚ
  idealX : ℝ
  idealY : ℝ
  ring : Nat
  x : ℝ
  y : ℝ
  fx : Option ℝ
  fy : Option ℝ

/-- The positioned layout tree. -/
inductive PTree where
| node : PD → List PTree → PTree

def PTree.data : PTree → PD
| .node d _ => d

def PTree.children : PTree → List PTree
| .node _ cs => cs

/-- Combines a sector-phase node with its computed ideal position; `x`,
`y` keep the value 0 they were given by `buildNode`, `fx`, `fy` are
undefined. -/
def mkPD (d : LND) (c : PosCtx) : PD :=
  { id := d.id, level := d.level, parentId := d.parentId,
    sectorStart := d.sectorStart, sectorEnd := d.sectorEnd, sectorCenter := d.sectorCenter,
    idealAngle := c.idealAngle, idealRadius := c.idealRadius,
    idealX := c.idealX, idealY := c.idealY, ring := c.ring,
    x := 0, y := 0, fx := none, fy := none }

mutual

/-- The recursion of `calculateChildPositions`: store this node's
position data, compute the children's contexts (radial or fan), recurse. -/
noncomputable def posTree (c : PosCtx) : LTree → PTree
| .node d cs =>
  .node (mkPD d c) (posForest (calcChildCtxs c d (cs.map (fun t => t.data))) cs)

noncomputable def posForest : List PosCtx → List LTree → List PTree
| _, [] => []
| [], _ :: _ => []
| c :: cs, t :: ts => posTree c t :: posForest cs ts

end

/-- `calculateIdealPositions`: the root is at the origin with angle and
radius 0, then children are positioned recursively. -/
noncomputable def calculateIdealPositions (t : LTree) : PTree :=
  posTree ⟨0, 0, 0, 0, 0⟩ t

theorem posForest_positions (g : LND → PosCtx) :
    ∀ cs : List LTree,
      (posForest (cs.map (fun t => g t.data)) cs).map (fun t => (t.data.idealX, t.data.idealY))
        = cs.map (fun t => ((g t.data).idealX, (g t.data).idealY)) := by
  intro cs
  induction cs with
  | nil => simp [posForest]
  | cons t ts ih =>
    cases t with
    | node d dcs =>
      simp only [List.map_cons, posForest, posTree]
      rw [ih]
      congr 1

/-- Claim C6.  For a parent at level 0 or 1 (children at level 1 or 2),
every child's ideal position is
`parent.idealPosition + d · (cos(sectorCenter·π), sin(sectorCenter·π))`
with `d = BASE_DISTANCES[childLevel] + childCount * DISTANCE_PER_CHILD`;
in particular a level-1 parent with three children places them at
distance `BASE_DISTANCES 2 + 3 * DISTANCE_PER_CHILD = 420`. -/
theorem positionChildrenRadial_correct (c : PosCtx) (d : LND) (cs : List LTree)
    (h : d.level ≤ 1) :
    ((posTree c (.node d cs)).children.map (fun t => (t.data.idealX, t.data.idealY))
      = cs.map (fun t =>
          (c.idealX + Real.cos ((t.data.sectorCenter : ℝ) * Real.pi)
              * ((BASE_DISTANCES (d.level + 1) + (cs.length : ℚ) * DISTANCE_PER_CHILD : ℚ) : ℝ),
           c.idealY + Real.sin ((t.data.sectorCenter : ℝ) * Real.pi)
              * ((BASE_DISTANCES (d.level + 1) + (cs.length : ℚ) * DISTANCE_PER_CHILD : ℚ) : ℝ))))
    ∧ (d.level = 1 → cs.length = 3 →
        BASE_DISTANCES (d.level + 1) + (cs.length : ℚ) * DISTANCE_PER_CHILD = 420) := by
  constructor
  · have hradial : calcChildCtxs c d (cs.map (fun t => t.data))
        = positionChildrenRadial c (cs.map (fun t => t.data)) (d.level + 1) := by
      simp only [calcChildCtxs]
      rw [if_pos (by omega)]
    show (posForest (calcChildCtxs c d (cs.map (fun t => t.data))) cs).map
        (fun t => (t.data.idealX, t.data.idealY)) = _
    rw [hradial]
    simp only [positionChildrenRadial, List.map_map, Function.comp_def]
    rw [posForest_positions (fun cd : LND =>
      ({ idealAngle := cd.sectorCenter,
         idealRadius := BASE_DISTANCES (d.level + 1)
           + ((cs.map (fun t => t.data)).length : ℚ) * DISTANCE_PER_CHILD,
         idealX := c.idealX + Real.cos ((cd.sectorCenter : ℝ) * Real.pi)
           * ((BASE_DISTANCES (d.level + 1)
               + ((cs.map (fun t => t.data)).length : ℚ) * DISTANCE_PER_CHILD : ℚ) : ℝ),
         idealY := c.idealY + Real.sin ((cd.sectorCenter : ℝ) * Real.pi)
           * ((BASE_DISTANCES (d.level + 1)
               + ((cs.map (fun t => t.data)).length : ℚ) * DISTANCE_PER_CHILD : ℚ) : ℝ),
         ring := 0 } : PosCtx))]
    simp [List.length_map]
  · intro h1 h3
    rw [h1, h3]
    norm_num [BASE_DISTANCES, DISTANCE_PER_CHILD]

/-- A bare level-1 node used to instantiate theorems about radial
placement. -/
def pLevel1 : LND := ⟨"p", 1, none, 0, 0, 0, 0, 2, 0⟩

theorem positionChildrenRadial_correct_witness :
    pLevel1.level ≤ 1
    ∧ BASE_DISTANCES (pLevel1.level + 1)
        + (([wLeaf, wLeaf, wLeaf] : List LTree).length : ℚ) * DISTANCE_PER_CHILD = 420 :=
  ⟨by norm_num [pLevel1],
    (positionChildrenRadial_correct ⟨0, 0, 0, 0, 0⟩ pLevel1
      [wLeaf, wLeaf, wLeaf] (by norm_num [pLevel1])).2 rfl rfl⟩

-- ============================================================
-- PHASE 5: runtime engine state and the static collision pass
-- ============================================================

instance : Inhabited PD :=
  ⟨⟨"", 0, none, 0, 0, 0, 0, 0, 0, 0, 0, 0, 0, none, none⟩⟩

mutual

/-- Applies `f` to the record of every node; models the source's
`for (const node of this.layoutNodes)` loops (the flat array aliases the
tree nodes). -/
def mapPD (f : PD → PD) : PTree → PTree
| .node d cs => .node (f d) (mapPDL f cs)

def mapPDL (f : PD → PD) : List PTree → List PTree
| [] => []
| t :: ts => mapPD f t :: mapPDL f ts

end

mutual

/-- The flat `layoutNodes` array: depth-first preorder, the order
`buildNode` pushes nodes. -/
def flattenP : PTree → List PD
| .node d cs => d :: flattenPL cs

def flattenPL : List PTree → List PD
| [] => []
| t :: ts => flattenP t ++ flattenPL ts

end

/-- First entry of `userPositions` for the given id (the source uses a
`Map`; ids are unique in a layout tree). -/
def upsLookup (ups : List (String × ℝ × ℝ)) (i : String) : Option (ℝ × ℝ) :=
  match ups.find? (fun e => e.1 == i) with
  | some e => some e.2
  | none => none

/-- `userPositions.has(id)`. -/
def upsHas (ups : List (String × ℝ × ℝ)) (i : String) : Bool :=
  (upsLookup ups i).isSome

/-- `userPositions.set(id, {x, y})`: overwrite any previous entry. -/
def upsSet (ups : List (String × ℝ × ℝ)) (i : String) (x y : ℝ) : List (String × ℝ × ℝ) :=
  (i, x, y) :: ups.filter (fun e => !(e.1 == i))

/-- `CONFIG.COLLISION_RADII`. -/
def COLLISION_RADII : Nat → ℚ
| 0 => 100
| 1 => 110
| 2 => 100
| 3 => 65
| _ => 60

/-- `CONFIG.COLLISION_RADII[Math.min(level, 4)] || CONFIG.COLLISION_RADII[4]`
(the lookup never misses after clamping, so the fallback is inert). -/
def collisionRadius (level : Nat) : ℚ := COLLISION_RADII (min level 4)

open Classical in
/-- The body of the double loop of `resolveCollisionsStatically` for the
pair `(i, j)`: skip if both nodes are fixed (level 0 or user-positioned);
if the centre distance is below `radiusA + radiusB + padding` and
positive, push the movable nodes apart along the connecting vector
(half the overlap each when both move, the full overlap otherwise) and
record that a collision happened. -/
noncomputable def stepPair (ups : List (String × ℝ × ℝ)) (st : List PD × Bool)
    (ij : Nat × Nat) : List PD × Bool :=
  let nodes := st.1
  let nodeA := nodes.getD ij.1 default
  let radiusA := collisionRadius nodeA.level
  let aIsFixed := nodeA.level == 0 || upsHas ups nodeA.id
  let nodeB := nodes.getD ij.2 default
  let radiusB := collisionRadius nodeB.level
  let bIsFixed := nodeB.level == 0 || upsHas ups nodeB.id
  if aIsFixed && bIsFixed then st
  else
    let dx := nodeB.idealX - nodeA.idealX
    let dy := nodeB.idealY - nodeA.idealY
    let distance := Real.sqrt (dx * dx + dy * dy)
    let minDistance := ((radiusA + radiusB : ℚ) : ℝ) + 10
    if distance < minDistance ∧ distance > 0 then
      let overlap := minDistance - distance
      let pushFactor := overlap / distance / 2
      if !aIsFixed && !bIsFixed then
        ((nodes.set ij.1 { nodeA with idealX := nodeA.idealX - dx * pushFactor,
                                      idealY := nodeA.idealY - dy * pushFactor }).set ij.2
            { nodeB with idealX := nodeB.idealX + dx * pushFactor,
                         idealY := nodeB.idealY + dy * pushFactor }, true)
      else if !aIsFixed then
        (nodes.set ij.1 { nodeA with idealX := nodeA.idealX - dx * pushFactor * 2,
                                     idealY := nodeA.idealY - dy * pushFactor * 2 }, true)
      else
        (nodes.set ij.2 { nodeB with idealX := nodeB.idealX + dx * pushFactor * 2,
                                     idealY := nodeB.idealY + dy * pushFactor * 2 }, true)
    else st

/-- The index pairs `(i, j)` with `i < j < n`, in the order the double
loop visits them. -/
def pairIndices (n : Nat) : List (Nat × Nat) :=
  (List.range n).flatMap (fun i =>
    (List.range n).filterMap (fun j => if i < j then some (i, j) else none))

/-- One iteration of the outer `for (iter …)` loop: visit every pair,
starting from `hasCollision = false`. -/
noncomputable def innerPass (ups : List (String × ℝ × ℝ)) (nodes : List PD) :
    List PD × Bool :=
  (pairIndices nodes.length).foldl (stepPair ups) (nodes, false)

/-- The outer loop, at most `fuel` iterations, stopping early after an
iteration without collisions. -/
noncomputable def resolveLoop (ups : List (String × ℝ × ℝ)) : Nat → List PD → List PD
| 0, nodes => nodes
| fuel + 1, nodes =>
  let r := innerPass ups nodes
  if r.2 then resolveLoop ups fuel r.1 else r.1

/-- `resolveCollisionsStatically`: 50 iterations with early exit. -/
noncomputable def resolveCollisionsStatically (ups : List (String × ℝ × ℝ))
    (nodes : List PD) : List PD :=
  resolveLoop ups 50 nodes

/-- First flat-array record with the given id. -/
def pdLookup (l : List PD) (i : String) : Option PD := l.find? (fun q => q.id == i)

/-- The first loop of `applyStaticLayout`: every non-root node with a
`userPositions` entry gets its ideal position replaced by it. -/
def applyUserPosToIdeals (ups : List (String × ℝ × ℝ)) : PTree → PTree :=
  mapPD fun p =>
    if p.level = 0 then p
    else match upsLookup ups p.id with
      | some q => { p with idealX := q.1, idealY := q.2 }
      | none => p

/-- Writes the ideal positions mutated by the collision pass back into
the tree (the source mutates shared node objects; ids are unique). -/
def writeIdealsFromList (l : List PD) : PTree → PTree :=
  mapPD fun p =>
    match pdLookup l p.id with
    | some q => { p with idealX := q.idealX, idealY := q.idealY }
    | none => p

/-- The final loop of `applyStaticLayout` (and `initializeActualPositions`):
`node.x = node.idealX; node.y = node.idealY`. -/
def setPositionsToIdeal : PTree → PTree :=
  mapPD fun p => { p with x := p.idealX, y := p.idealY }

/-- The flat node list as it stands right before the collision pass of
`applyStaticLayout` (user positions applied, collisions not yet
resolved): each node's effective starting position. -/
def staticPre (ups : List (String × ℝ × ℝ)) (t : PTree) : List PD :=
  flattenP (applyUserPosToIdeals ups t)

/-- `applyStaticLayout`: user positions onto ideals, static collision
resolution, then `x := idealX`. -/
noncomputable def applyStaticLayout (ups : List (String × ℝ × ℝ)) (t : PTree) : PTree :=
  setPositionsToIdeal
    (writeIdealsFromList (resolveCollisionsStatically ups (staticPre ups t))
      (applyUserPosToIdeals ups t))

/-- `LayoutMode`. -/
inductive LayoutMode where
| simulation
| static

/-- The engine's persistent state: the current layout tree (none before
the first initialisation), the `userPositions` store, the layout mode,
and whether a d3 simulation object exists. -/
structure EngineState where
  mode : LayoutMode
  tree : Option PTree
  userPositions : List (String × ℝ × ℝ)
  hasSim : Bool

/-- Phases 1–4 of `initSimulation`/`updateNodes`: build, analyze, assign
sectors, calculate ideal positions. -/
noncomputable def pipelineP (rootNode : Node) (expandedIds : List String) : PTree :=
  calculateIdealPositions (sectorPipeline rootNode expandedIds)

/-- `initializeActualPositions`: `node.x = node.idealX; node.y = node.idealY`. -/
def initializeActualPositions : PTree → PTree :=
  mapPD fun p => { p with x := p.idealX, y := p.idealY }

/-- `fixLevel0Node`: pins every level-0 node to its ideal position with
the d3 fixing fields set. -/
def fixLevel0Node : PTree → PTree :=
  mapPD fun p =>
    if p.level = 0 then
      { p with fx := some p.idealX, fy := some p.idealY, x := p.idealX, y := p.idealY }
    else p

/-- `initSimulation`: rebuild everything from scratch; in static mode run
the static layout (no simulation object), in simulation mode pin level 0
and start the simulation. -/
noncomputable def initSimulation (s : EngineState) (rootNode : Node)
    (expandedIds : List String) : EngineState :=
  let t0 := initializeActualPositions (pipelineP rootNode expandedIds)
  match s.mode with
  | .static =>
    { s with tree := some (applyStaticLayout s.userPositions t0), hasSim := false }
  | .simulation =>
    { s with tree := some (fixLevel0Node t0), hasSim := true }

/-- The restore loop of `updateNodes` (simulation mode): level 0 is left
for `fixLevel0Node`; otherwise a `userPositions` entry wins (and also
overwrites the ideal position), then the position from the previous
layout pass, then the fresh ideal position. -/
def restorePositions (ups : List (String × ℝ × ℝ))
    (oldPositions : List (String × ℝ × ℝ)) : PTree → PTree :=
  mapPD fun p =>
    if p.level = 0 then p
    else match upsLookup ups p.id with
      | some q => { p with x := q.1, y := q.2, idealX := q.1, idealY := q.2 }
      | none => match upsLookup oldPositions p.id with
        | some q => { p with x := q.1, y := q.2 }
        | none => { p with x := p.idealX, y := p.idealY }

/-- `updateNodes`: static mode always re-initialises; simulation mode
without a live simulation re-initialises; otherwise rebuild and restore
positions by priority, then pin level 0 and restart the simulation. -/
noncomputable def updateNodes (s : EngineState) (rootNode : Node)
    (expandedIds : List String) : EngineState :=
  match s.mode with
  | .static => initSimulation s rootNode expandedIds
  | .simulation =>
    if !s.hasSim then initSimulation s rootNode expandedIds
    else match s.tree with
      | none => initSimulation s rootNode expandedIds
      | some told =>
        let oldPositions := (flattenP told).map (fun p => (p.id, p.x, p.y))
        let t1 := restorePositions s.userPositions oldPositions (pipelineP rootNode expandedIds)
        { s with tree := some (fixLevel0Node t1), hasSim := true }

mutual

/-- `nodeMap.get(id)` as a search for the subtree rooted at the node with
the given id (first match in preorder; ids are unique in a layout tree). -/
def findSubT (i : String) : PTree → Option PTree
| .node d cs => if d.id == i then some (.node d cs) else findSubL i cs

def findSubL (i : String) : List PTree → Option PTree
| [] => none
| t :: ts =>
  match findSubT i t with
  | some u => some u
  | none => findSubL i ts

end

mutual

def containsIdT (i : String) : PTree → Bool
| .node d cs => d.id == i || containsIdL i cs

def containsIdL (i : String) : List PTree → Bool
| [] => false
| t :: ts => containsIdT i t || containsIdL i ts

end

mutual

/-- Rewrites the subtree rooted at the (first, in preorder) node with the
given id through `f`; models in-place mutation of that node object and
its descendants. -/
def replaceFirst (i : String) (f : PTree → PTree) : PTree → PTree
| .node d cs => if d.id == i then f (.node d cs) else .node d (replaceFirstL i f cs)

def replaceFirstL (i : String) (f : PTree → PTree) : List PTree → List PTree
| [] => []
| t :: ts => if containsIdT i t then replaceFirst i f t :: ts else t :: replaceFirstL i f ts

end

mutual

/-- `moveNodeAndDescendants`: shift the node and its whole subtree by
`(dx, dy)`. -/
def translateP (dx dy : ℝ) : PTree → PTree
| .node d cs => .node { d with x := d.x + dx, y := d.y + dy } (translatePL dx dy cs)

def translatePL (dx dy : ℝ) : List PTree → List PTree
| [] => []
| t :: ts => translateP dx dy t :: translatePL dx dy ts

end

/-- `setNodePosition(nodeId, x, y)`: refuse for level 0 or unknown ids;
otherwise translate the node and all its descendants by the delta to the
requested position. -/
def setNodePosition (i : String) (X Y : ℝ) (s : EngineState) : EngineState :=
  match s.tree with
  | none => s
  | some t =>
    match findSubT i t with
    | none => s
    | some u =>
      if u.data.level = 0 then s
      else { s with tree := some (replaceFirst i (translateP (X - u.data.x) (Y - u.data.y)) t) }

/-- `fixNode`: pin the node at its current position (level 0 refused);
stopping the in-flight simulation does not change any position. -/
def fixNode (i : String) (s : EngineState) : EngineState :=
  match s.tree with
  | none => s
  | some t =>
    match findSubT i t with
    | none => s
    | some u =>
      if u.data.level = 0 then s
      else { s with tree := some (replaceFirst i (fun v =>
        match v with
        | .node d cs => .node { d with fx := some d.x, fy := some d.y } cs) t) }

/-- `unfixNode`: clear the fixing without saving. -/
def unfixNode (i : String) (s : EngineState) : EngineState :=
  match s.tree with
  | none => s
  | some t =>
    match findSubT i t with
    | none => s
    | some u =>
      if u.data.level = 0 then s
      else { s with tree := some (replaceFirst i (fun v =>
        match v with
        | .node d cs => .node { d with fx := none, fy := none } cs) t) }

/-- `releaseNode`: unfix, persist the node's and all its descendants'
current positions into `userPositions`, and set their ideal positions to
the current ones (restarting the simulation changes no position). -/
def releaseNode (i : String) (s : EngineState) : EngineState :=
  match s.tree with
  | none => s
  | some t =>
    match findSubT i t with
    | none => s
    | some u =>
      if u.data.level = 0 then s
      else
        let ups' := (flattenP u).foldl (fun acc p => upsSet acc p.id p.x p.y) s.userPositions
        { s with
          userPositions := ups',
          tree := some (replaceFirst i (fun v =>
            match v with
            | .node d cs =>
              .node { d with fx := none, fy := none, idealX := d.x, idealY := d.y }
                (mapPDL (fun p => { p with idealX := p.x, idealY := p.y }) cs)) t) }

/-- `resetNodePosition`: drop the store entry and snap the node back to
its ideal position. -/
def resetNodePosition (i : String) (s : EngineState) : EngineState :=
  let ups' := s.userPositions.filter (fun e => !(e.1 == i))
  match s.tree with
  | none => { s with userPositions := ups' }
  | some t =>
    match findSubT i t with
    | none => { s with userPositions := ups' }
    | some _ =>
      { s with
        userPositions := ups',
        tree := some (replaceFirst i (fun v =>
          match v with
          | .node d cs =>
            .node { d with x := d.idealX, y := d.idealY, fx := none, fy := none } cs) t) }

/-- `resetUserPositions`: clear the whole store. -/
def resetUserPositions (s : EngineState) : EngineState :=
  { s with userPositions := [] }

/-- `wobble`: adds random velocity impulses to non-root nodes and
restarts the simulation; neither touches any `x`/`y` directly (we do not
track velocities). -/
def wobble (s : EngineState) : EngineState := s

/-- One d3 tick, abstracted: a node with `fx`/`fy` set sits exactly
there; any other node is moved by the forces, abstracted as an arbitrary
displacement function `δ`.  Ticks only happen while a simulation exists. -/
def tickNode (δ : String → ℝ × ℝ) (p : PD) : PD :=
  { p with
    x := match p.fx with | some v => v | none => (δ p.id).1,
    y := match p.fy with | some v => v | none => (δ p.id).2 }

def tick (δ : String → ℝ × ℝ) (s : EngineState) : EngineState :=
  if s.hasSim then
    match s.tree with
    | none => s
    | some t => { s with tree := some (mapPD (tickNode δ) t) }
  else s

/-- `resetToOriginalPositions` (focus-mode exit): every non-root node
goes back to its `userPositions` entry if present, else its ideal
position; level 0 is skipped. -/
def resetToOriginalPositions (s : EngineState) : EngineState :=
  match s.tree with
  | none => s
  | some t =>
    { s with tree := some (mapPD (fun p =>
        if p.level = 0 then p
        else match upsLookup s.userPositions p.id with
          | some q => { p with x := q.1, y := q.2 }
          | none => { p with x := p.idealX, y := p.idealY }) t) }

-- ============================================================
-- Focus mode (`calculateFocusModeLayout` of the app component)
-- ============================================================

/-- `calculateChildRadius(childCount)`. -/
noncomputable def calculateChildRadius (childCount : Nat) : ℝ :=
  if childCount = 0 then 100
  else if childCount ≤ 5 then 140 + (childCount : ℝ) * 30
  else max 200 (((childCount : ℝ) * 90) / (2 * Real.pi))

mutual

def findNodeById (i : String) : Node → Option Node
| .mk nid ncs => if nid == i then some (.mk nid ncs) else findNodeInChildren i ncs

def findNodeInChildren (i : String) : List Node → Option Node
| [] => none
| c :: cs =>
  match findNodeById i c with
  | some n => some n
  | none => findNodeInChildren i cs

end

mutual

/-- `findPathToNode`: ids from the root down to the target, inclusive. -/
def findPathToNode (targetId : String) : Node → List String → Option (List String)
| .mk nid ncs, path =>
  let currentPath := path ++ [nid]
  if nid == targetId then some currentPath
  else findPathInChildren targetId ncs currentPath

def findPathInChildren (targetId : String) : List Node → List String → Option (List String)
| [], _ => none
| c :: cs, currentPath =>
  match findPathToNode targetId c currentPath with
  | some r => some r
  | none => findPathInChildren targetId cs currentPath

end

/-- The half-circle placement of the focused node's children
(`count <= 5`): from `-π/2` to `π/2` at radius `CHILD_RADIUS` around the
focus at the origin. -/
noncomputable def focusChildrenHalf (radius : ℝ) (count : Nat) (angleStep : ℝ) :
    Nat → List Node → List (String × ℝ × ℝ)
| _, [] => []
| index, c :: cs =>
  let angle : ℝ := if count = 1 then 0 else -(Real.pi / 2) + (index : ℝ) * angleStep
  (c.id, Real.cos angle * radius, Real.sin angle * radius)
    :: focusChildrenHalf radius count angleStep (index + 1) cs

/-- The full-circle-with-gap placement (`count > 5`): step
`(2π - gap) / count` from 0°, skipping the fixed gap at 160°–200°. -/
noncomputable def focusChildrenGap (radius : ℝ) (angleStep gapStartRad gapSizeRad : ℝ) :
    Nat → List Node → List (String × ℝ × ℝ)
| _, [] => []
| index, c :: cs =>
  let angle0 : ℝ := (index : ℝ) * angleStep
  let angle := if gapStartRad ≤ angle0 then angle0 + gapSizeRad else angle0
  (c.id, Real.cos angle * radius, Real.sin angle * radius)
    :: focusChildrenGap radius angleStep gapStartRad gapSizeRad (index + 1) cs

open Classical in
/-- The children block of `calculateFocusModeLayout`: positions of the
focused node's children around the focus at the origin. -/
noncomputable def focusChildrenPositions (children : List Node) (radius : ℝ) :
    List (String × ℝ × ℝ) :=
  let count := children.length
  if count ≤ 5 then
    let angleStep : ℝ := if count > 1 then Real.pi / ((count : ℝ) - 1) else 0
    focusChildrenHalf radius count angleStep 0 children
  else
    let gapStartRad : ℝ := 160 * Real.pi / 180
    let gapSizeRad : ℝ := (200 - 160) * Real.pi / 180
    let angleStep : ℝ := (2 * Real.pi - gapSizeRad) / (count : ℝ)
    focusChildrenGap radius angleStep gapStartRad gapSizeRad 0 children

/-- `applyFocusModeWithCollisionAvoidance`: pin every node listed in
`fixedPositions` at its given position, temporarily pin the focus
children at their current positions, run the synchronous collision
simulation (abstracted by `δ`; pinned nodes do not move), then release
the pins of every node above level 0. -/
def applyFocusModeWithCollisionAvoidance (fixedPositions : List (String × ℝ × ℝ))
    (focusChildIds : List String) (δ : String → ℝ × ℝ) (t : PTree) : PTree :=
  let t1 := mapPD (fun p =>
    match upsLookup fixedPositions p.id with
    | some q => { p with x := q.1, y := q.2, fx := some q.1, fy := some q.2 }
    | none => p) t
  let t2 := mapPD (fun p =>
    if focusChildIds.contains p.id then { p with fx := some p.x, fy := some p.y } else p) t1
  let t3 := mapPD (tickNode δ) t2
  mapPD (fun p => if 0 < p.level then { p with fx := none, fy := none } else p) t3

open Classical in
/-- `calculateFocusModeLayout`: the root goes far to the left
(`x = -(350 + max(400, childRadius + 180))`), the focused node to the
origin, ancestors between them, the focused node's children (when
expanded) on the half circle or gap circle, then everything is applied
with collision avoidance. -/
noncomputable def calculateFocusModeLayout (rootNode : Node) (focusId : String)
    (focusLevel : Nat) (expandedIds : List String) (δ : String → ℝ × ℝ)
    (t : PTree) : PTree :=
  let focusNode := findNodeById focusId rootNode
  let childCount := match focusNode with
    | some n => n.children.length
    | none => 0
  let CHILD_RADIUS := calculateChildRadius childCount
  let L1_TO_FOCUS_SPACING : ℝ := max 400 (CHILD_RADIUS + 180)
  let L0_TO_L1_SPACING : ℝ := 350
  let l0X : ℝ := -(L0_TO_L1_SPACING + L1_TO_FOCUS_SPACING)
  let positions0 := upsSet [] rootNode.id l0X 0
  let positions1 := upsSet positions0 focusId 0 0
  let path := findPathToNode focusId rootNode []
  let positions2 :=
    if focusLevel = 1 then positions1
    else if focusLevel = 2 then
      match path with
      | some p =>
        if 2 ≤ p.length then upsSet positions1 (p.getD 1 "") (-L1_TO_FOCUS_SPACING) 0
        else positions1
      | none => positions1
    else if 3 ≤ focusLevel then
      match path with
      | some p =>
        let q1 := if 2 ≤ p.length then upsSet positions1 (p.getD 1 "") (l0X + L0_TO_L1_SPACING) 0
                  else positions1
        if 3 ≤ p.length then upsSet q1 (p.getD 2 "") (-L1_TO_FOCUS_SPACING) 0 else q1
      | none => positions1
    else positions1
  let childBlock :=
    match focusNode with
    | some n =>
      if 0 < n.children.length ∧ expandedIds.contains focusId then
        some (focusChildrenPositions n.children CHILD_RADIUS)
      else none
    | none => none
  let positions3 :=
    match childBlock with
    | some l => l.foldl (fun acc e => upsSet acc e.1 e.2.1 e.2.2) positions2
    | none => positions2
  let focusChildIds :=
    match childBlock with
    | some l => l.map (fun e => e.1)
    | none => []
  applyFocusModeWithCollisionAvoidance positions3 focusChildIds δ t

-- ============================================================
-- Arrangement commands (`arrangeChildrenCircular` and helpers)
-- ============================================================

/-- The raw `CONFIG.COLLISION_RADII` table (no clamping); the arrange
functions index it directly with `|| fallback` defaults. -/
def COLLISION_RADII_opt : Nat → Option ℚ
| 0 => some 100
| 1 => some 110
| 2 => some 100
| 3 => some 65
| 4 => some 60
| _ => none

/-- `Math.atan2(y, x)`. -/
noncomputable def atan2 (y x : ℝ) : ℝ :=
  if 0 < x then Real.arctan (y / x)
  else if x < 0 then
    (if 0 ≤ y then Real.arctan (y / x) + Real.pi else Real.arctan (y / x) - Real.pi)
  else
    (if 0 < y then Real.pi / 2 else if y < 0 then -(Real.pi / 2) else 0)

/-- The fan angles of `arrangeGrandchildrenOutward`:
`totalFanAngle = min(0.8π, count * 0.3)`, swept around `outwardAngle`
(a single grandchild sits exactly at `outwardAngle`). -/
noncomputable def grandFanAngles (outwardAngle : ℝ) (count : Nat) : List ℝ :=
  let totalFanAngle := min (Real.pi * (8/10)) ((count : ℝ) * (3/10))
  let angleStep := if count > 1 then totalFanAngle / ((count : ℝ) - 1) else 0
  let startAngle := outwardAngle - totalFanAngle / 2
  (List.range count).map fun i =>
    if count = 1 then outwardAngle else startAngle + (i : ℝ) * angleStep

/-- `arrangeGrandchildrenOutward`, recursively: each node of the forest is
placed at its fan angle at the configured distance from `(childX, childY)`,
its current and ideal positions are set, a `userPositions` entry is
recorded, and its own children are fanned further outward along its
angle. -/
noncomputable def arrangeGrandForest (childX childY dist : ℝ) :
    List ℝ → List PTree → List PTree × List (String × ℝ × ℝ)
| _, [] => ([], [])
| [], _ :: _ => ([], [])
| a :: as, .node gd gcs :: ts =>
  let newX := childX + Real.cos a * dist
  let newY := childY + Real.sin a * dist
  let gd' := { gd with x := newX, y := newY, idealX := newX, idealY := newY }
  let grandchildRadius := (COLLISION_RADII_opt (min (gd.level + 1) 4)).getD 65
  let childRadius := (COLLISION_RADII_opt gd.level).getD 100
  let dist2 := ((childRadius + grandchildRadius + 2 : ℚ) : ℝ)
  let angles2 := grandFanAngles a gcs.length
  let sub := arrangeGrandForest newX newY dist2 angles2 gcs
  let rest := arrangeGrandForest childX childY dist as ts
  (.node gd' sub.1 :: rest.1, (gd.id, newX, newY) :: (sub.2 ++ rest.2))

/-- `applyPositionsAndArrangeGrandchildren`: write each computed child
position into the tree and the store, and fan the child's descendants
outward along the child's angle. -/
noncomputable def applyPositionsAndArrangeGrandchildren
    (positions : List (String × ℝ × ℝ × ℝ)) (t : PTree)
    (ups : List (String × ℝ × ℝ)) : PTree × List (String × ℝ × ℝ) :=
  positions.foldl (fun st pos =>
    match findSubT pos.1 st.1 with
    | none => st
    | some (.node d cs) =>
      let newX := pos.2.1
      let newY := pos.2.2.1
      let d' := { d with x := newX, y := newY, idealX := newX, idealY := newY }
      let grandchildRadius := (COLLISION_RADII_opt (min (d.level + 1) 4)).getD 65
      let childRadius := (COLLISION_RADII_opt d.level).getD 100
      let dist2 := ((childRadius + grandchildRadius + 2 : ℚ) : ℝ)
      let angles2 := grandFanAngles pos.2.2.2 cs.length
      let sub := arrangeGrandForest newX newY dist2 angles2 cs
      (replaceFirst pos.1 (fun _ => .node d' sub.1) st.1,
        sub.2.foldl (fun a e => upsSet a e.1 e.2.1 e.2.2) (upsSet st.2 pos.1 newX newY))
    ) (t, ups)

/-- One ring of `arrangeChildrenCircular`: children evenly spaced on the
ring, starting at `startAngle`. -/
noncomputable def ringRow (parentX parentY ringRadius startAngle angleStep : ℝ) :
    Nat → List String → List (String × ℝ × ℝ × ℝ)
| _, [] => []
| index, c :: cs =>
  let angle := startAngle + (index : ℝ) * angleStep
  (c, parentX + Real.cos angle * ringRadius, parentY + Real.sin angle * ringRadius, angle)
    :: ringRow parentX parentY ringRadius startAngle angleStep (index + 1) cs

open Classical in
/-- The `while (remainingChildren.length > 0)` ring loop of
`arrangeChildrenCircular`: ring capacity
`max(1, floor(2π·ringRadius / minChildSpacing))`, rings at
`baseRingRadius + ringIndex * ringSpacing`, each ring offset by half an
angle step. -/
noncomputable def ringPositions (parentX parentY baseRingRadius minChildSpacing ringSpacing : ℝ) :
    Nat → List String → List (String × ℝ × ℝ × ℝ)
| _, [] => []
| ringIndex, c :: rest =>
  let rem := c :: rest
  let ringRadius := baseRingRadius + (ringIndex : ℝ) * ringSpacing
  let capacity := max 1 ⌊(2 * Real.pi * ringRadius) / minChildSpacing⌋₊
  let nodesInThisRing := min capacity rem.length
  let angleStep := (2 * Real.pi) / (nodesInThisRing : ℝ)
  let ringOffset := (ringIndex : ℝ) * (angleStep / 2)
  let startAngle := -(Real.pi / 2) + ringOffset
  ringRow parentX parentY ringRadius startAngle angleStep 0 (rem.take nodesInThisRing)
    ++ ringPositions parentX parentY baseRingRadius minChildSpacing ringSpacing (ringIndex + 1)
        (rem.drop nodesInThisRing)
termination_by ringIndex rem => rem.length
decreasing_by
  simp only [List.length_drop]
  simp only [List.length_cons]
  omega

/-- The fan positions of `arrangeChildrenInFanAwayFromGrandparent`:
children on a fan pointing away from the grandparent
(`~100°` per child for 2 children, `60°` for 3). -/
noncomputable def fanAwayPositions (parentX parentY ringRadius outwardAngle : ℝ)
    (count : Nat) : List String → List (String × ℝ × ℝ × ℝ) :=
  let anglePerChild : ℝ := if count = 2 then Real.pi * (56/100) else Real.pi / 3
  let totalFanAngle := ((count : ℝ) - 1) * anglePerChild
  let startAngle := outwardAngle - totalFanAngle / 2
  let actualAngleStep := if count > 1 then totalFanAngle / ((count : ℝ) - 1) else 0
  fun childIds => ringRow parentX parentY ringRadius
    (if count = 1 then outwardAngle else startAngle) (if count = 1 then 0 else actualAngleStep)
    0 childIds

open Classical in
/-- `arrangeChildrenCircular(parentId, childIds)` on the engine state:
level-1/2 parents with fewer than 4 children get the fan away from the
grandparent; otherwise children are distributed onto concentric rings;
all produced positions are persisted into `userPositions`. -/
noncomputable def arrangeChildrenCircular (parentId : String) (childIds : List String)
    (s : EngineState) : EngineState :=
  match s.tree with
  | none => s
  | some t =>
    match findSubT parentId t with
    | none => s
    | some parent =>
      if childIds = [] then s
      else
        let parentX := parent.data.x
        let parentY := parent.data.y
        let parentLevel := parent.data.level
        let childLevel := min (parentLevel + 1) 4
        let childRadius := (COLLISION_RADII_opt childLevel).getD 65
        let parentRadius := (COLLISION_RADII_opt parentLevel).getD 100
        let baseRingRadius := ((parentRadius + childRadius + 2 : ℚ) : ℝ)
        let positions :=
          if (parentLevel = 1 ∨ parentLevel = 2) ∧ childIds.length < 4 then
            let grandparent := match parent.data.parentId with
              | some gp => findSubT gp t
              | none => none
            let grandparentX := match grandparent with
              | some g => g.data.x
              | none => 0
            let grandparentY := match grandparent with
              | some g => g.data.y
              | none => 0
            let outwardAngle := atan2 (parentY - grandparentY) (parentX - grandparentX)
            fanAwayPositions parentX parentY baseRingRadius outwardAngle childIds.length childIds
          else
            let minChildSpacing : ℚ :=
              if parentLevel = 1 then childRadius * (16/10) else childRadius * 2 + 20
            ringPositions parentX parentY baseRingRadius ((minChildSpacing : ℚ) : ℝ)
              (((childRadius + 10 : ℚ) : ℝ)) 0 childIds
        let r := applyPositionsAndArrangeGrandchildren positions t s.userPositions
        { s with tree := some r.1, userPositions := r.2 }

/-- The radius of `arrangeChildrenCircularFocusMode`. -/
noncomputable def fmRadius (parentRadius childRadius : ℚ) (count : Nat) : ℝ :=
  if count ≤ 5 then ((parentRadius + childRadius + 40 : ℚ) : ℝ) + (count : ℝ) * 25
  else max (((parentRadius + childRadius + 60 : ℚ) : ℝ)) (((count : ℝ) * 90) / (2 * Real.pi))

open Classical in
/-- The angles of `arrangeChildrenCircularFocusMode`: half circle on the
right for at most 5 children; otherwise a full circle starting at 0°,
skipping the fixed gap at 160°–200° (the left side, where the focus
layout puts the parent chain). -/
noncomputable def fmAngles (count : Nat) : List ℝ :=
  if count ≤ 5 then
    let startAngle : ℝ := -(Real.pi / 2)
    let endAngle : ℝ := Real.pi / 2
    let angleStep : ℝ := if count > 1 then (endAngle - startAngle) / ((count : ℝ) - 1) else 0
    (List.range count).map fun i =>
      if count = 1 then 0 else startAngle + (i : ℝ) * angleStep
  else
    let gapStartRad : ℝ := 160 * Real.pi / 180
    let gapEndRad : ℝ := 200 * Real.pi / 180
    let gapSizeRad := gapEndRad - gapStartRad
    let availableAngle := 2 * Real.pi - gapSizeRad
    let angleStep := availableAngle / (count : ℝ)
    (List.range count).map fun i =>
      let angle0 := (i : ℝ) * angleStep
      if gapStartRad ≤ angle0 then angle0 + gapSizeRad else angle0

/-- `arrangeChildrenCircularFocusMode(parentId, childIds)`: children on
the half circle / gap circle around the parent at `fmRadius`; positions
are applied to the nodes but NOT persisted into `userPositions`. -/
noncomputable def arrangeChildrenCircularFocusMode (parentId : String)
    (childIds : List String) (s : EngineState) : EngineState :=
  match s.tree with
  | none => s
  | some t =>
    match findSubT parentId t with
    | none => s
    | some parent =>
      if childIds = [] then s
      else
        let parentX := parent.data.x
        let parentY := parent.data.y
        let count := childIds.length
        let childLevel := min (parent.data.level + 1) 4
        let childRadius := (COLLISION_RADII_opt childLevel).getD 65
        let parentRadius := (COLLISION_RADII_opt parent.data.level).getD 100
        let radius := fmRadius parentRadius childRadius count
        let t' := (childIds.zip (fmAngles count)).foldl (fun acc e =>
          replaceFirst e.1 (fun v =>
            match v with
            | .node d cs =>
              .node { d with x := parentX + Real.cos e.2 * radius,
                             y := parentY + Real.sin e.2 * radius } cs) acc) t
        { s with tree := some t' }

-- ============================================================
-- The static collision pass, pairwise behavior (claims C5, C9)
-- ============================================================

/-- A node is fixed for the static pass: root level or a Position Store
entry. -/
def isFixedPD (ups : List (String × ℝ × ℝ)) (p : PD) : Bool :=
  p.level == 0 || upsHas ups p.id

/-- Centre distance of a pair, as the pass computes it. -/
noncomputable def pairDistance (p q : PD) : ℝ :=
  Real.sqrt ((q.idealX - p.idealX) * (q.idealX - p.idealX)
    + (q.idealY - p.idealY) * (q.idealY - p.idealY))

/-- The overlap threshold of a pair: sum of collision radii plus the
padding constant 10. -/
noncomputable def pairMinDistance (p q : PD) : ℝ :=
  ((collisionRadius p.level + collisionRadius q.level : ℚ) : ℝ) + 10

theorem collisionRadius_pos (l : Nat) : 0 < collisionRadius l := by
  unfold collisionRadius
  rcases hm : min l 4 with _ | _ | _ | _ | m <;> simp [COLLISION_RADII]

theorem stepPair_skip_bothFixed (ups : List (String × ℝ × ℝ)) (nodes : List PD)
    (flag : Bool) (i j : Nat)
    (ha : isFixedPD ups (nodes.getD i default) = true)
    (hb : isFixedPD ups (nodes.getD j default) = true) :
    stepPair ups (nodes, flag) (i, j) = (nodes, flag) := by
  simp only [isFixedPD] at ha hb
  simp only [stepPair]
  rw [if_pos (by rw [Bool.and_eq_true]; exact ⟨ha, hb⟩)]

theorem stepPair_skip_noOverlap (ups : List (String × ℝ × ℝ)) (nodes : List PD)
    (flag : Bool) (i j : Nat)
    (h : ¬ (pairDistance (nodes.getD i default) (nodes.getD j default)
            < pairMinDistance (nodes.getD i default) (nodes.getD j default)
          ∧ pairDistance (nodes.getD i default) (nodes.getD j default) > 0)) :
    stepPair ups (nodes, flag) (i, j) = (nodes, flag) := by
  simp only [pairDistance, pairMinDistance] at h
  simp only [stepPair]
  by_cases hf : ((nodes.getD i default).level == 0 || upsHas ups (nodes.getD i default).id)
      && ((nodes.getD j default).level == 0 || upsHas ups (nodes.getD j default).id)
  · rw [if_pos hf]
  · rw [if_neg hf, if_neg h]

/-- The record the pass writes for the first node of an overlapping pair
(`idealX -= dx * factor`, `idealY -= dy * factor`). -/
noncomputable def pushedA (p q : PD) (factor : ℝ) : PD :=
  { p with idealX := p.idealX - (q.idealX - p.idealX) * factor,
           idealY := p.idealY - (q.idealY - p.idealY) * factor }

/-- The record the pass writes for the second node of an overlapping pair
(`idealX += dx * factor`, `idealY += dy * factor`). -/
noncomputable def pushedB (p q : PD) (factor : ℝ) : PD :=
  { q with idealX := q.idealX + (q.idealX - p.idealX) * factor,
           idealY := q.idealY + (q.idealY - p.idealY) * factor }

/-- `overlap / distance / 2`. -/
noncomputable def pushFactorOf (p q : PD) : ℝ :=
  (pairMinDistance p q - pairDistance p q) / pairDistance p q / 2

/-- Euclidean distance between the ideal positions of two records. -/
noncomputable def displacementNorm (p p2 : PD) : ℝ :=
  Real.sqrt ((p2.idealX - p.idealX) * (p2.idealX - p.idealX)
    + (p2.idealY - p.idealY) * (p2.idealY - p.idealY))

theorem scaled_norm (dx dy f : ℝ) (hf : 0 ≤ f) :
    Real.sqrt ((dx * f) * (dx * f) + (dy * f) * (dy * f))
      = f * Real.sqrt (dx * dx + dy * dy) := by
  have h1 : (dx * f) * (dx * f) + (dy * f) * (dy * f) = (f ^ 2) * (dx * dx + dy * dy) := by
    ring
  rw [h1, Real.sqrt_mul (by positivity), Real.sqrt_sq hf]

theorem displacementNorm_pushedA (p q : PD) (f : ℝ) (hf : 0 ≤ f) :
    displacementNorm p (pushedA p q f) = f * pairDistance p q := by
  simp only [displacementNorm, pushedA, pairDistance]
  have h1 : p.idealX - (q.idealX - p.idealX) * f - p.idealX = -((q.idealX - p.idealX) * f) := by
    ring
  have h2 : p.idealY - (q.idealY - p.idealY) * f - p.idealY = -((q.idealY - p.idealY) * f) := by
    ring
  rw [h1, h2]
  have h3 : -((q.idealX - p.idealX) * f) * -((q.idealX - p.idealX) * f)
      + -((q.idealY - p.idealY) * f) * -((q.idealY - p.idealY) * f)
      = ((q.idealX - p.idealX) * f) * ((q.idealX - p.idealX) * f)
        + ((q.idealY - p.idealY) * f) * ((q.idealY - p.idealY) * f) := by
    ring
  rw [h3, scaled_norm _ _ _ hf]

theorem displacementNorm_pushedB (p q : PD) (f : ℝ) (hf : 0 ≤ f) :
    displacementNorm q (pushedB p q f) = f * pairDistance p q := by
  simp only [displacementNorm, pushedB, pairDistance]
  have h1 : q.idealX + (q.idealX - p.idealX) * f - q.idealX = (q.idealX - p.idealX) * f := by
    ring
  have h2 : q.idealY + (q.idealY - p.idealY) * f - q.idealY = (q.idealY - p.idealY) * f := by
    ring
  rw [h1, h2, scaled_norm _ _ _ hf]

theorem andFalseLeft (a b : Bool) (h : a = false) : ¬ ((a && b) = true) := by
  rw [h]
  simp

theorem andFalseRight (a b : Bool) (h : b = false) : ¬ ((a && b) = true) := by
  rw [h]
  simp

theorem stepPair_push_both (ups : List (String × ℝ × ℝ)) (nodes : List PD)
    (flag : Bool) (i j : Nat)
    (ha : isFixedPD ups (nodes.getD i default) = false)
    (hb : isFixedPD ups (nodes.getD j default) = false)
    (hov : pairDistance (nodes.getD i default) (nodes.getD j default)
            < pairMinDistance (nodes.getD i default) (nodes.getD j default)
          ∧ pairDistance (nodes.getD i default) (nodes.getD j default) > 0) :
    stepPair ups (nodes, flag) (i, j)
      = ((nodes.set i (pushedA (nodes.getD i default) (nodes.getD j default)
            (pushFactorOf (nodes.getD i default) (nodes.getD j default)))).set j
          (pushedB (nodes.getD i default) (nodes.getD j default)
            (pushFactorOf (nodes.getD i default) (nodes.getD j default))), true) := by
  simp only [isFixedPD] at ha hb
  simp only [pairDistance, pairMinDistance] at hov
  simp only [stepPair]
  rw [if_neg (andFalseLeft _ _ ha), if_pos hov, if_pos (by rw [ha, hb]; rfl)]
  simp only [pushedA, pushedB, pushFactorOf, pairDistance, pairMinDistance]

theorem stepPair_push_onlyA (ups : List (String × ℝ × ℝ)) (nodes : List PD)
    (flag : Bool) (i j : Nat)
    (ha : isFixedPD ups (nodes.getD i default) = false)
    (hb : isFixedPD ups (nodes.getD j default) = true)
    (hov : pairDistance (nodes.getD i default) (nodes.getD j default)
            < pairMinDistance (nodes.getD i default) (nodes.getD j default)
          ∧ pairDistance (nodes.getD i default) (nodes.getD j default) > 0) :
    stepPair ups (nodes, flag) (i, j)
      = (nodes.set i (pushedA (nodes.getD i default) (nodes.getD j default)
          (pushFactorOf (nodes.getD i default) (nodes.getD j default) * 2)), true) := by
  simp only [isFixedPD] at ha hb
  simp only [pairDistance, pairMinDistance] at hov
  simp only [stepPair]
  rw [if_neg (andFalseLeft _ _ ha), if_pos hov,
    if_neg (andFalseRight _ _ (by rw [hb]; rfl)), if_pos (by rw [ha]; rfl)]
  have harith : pushedA (nodes.getD i default) (nodes.getD j default)
        (pushFactorOf (nodes.getD i default) (nodes.getD j default) * 2)
      = { nodes.getD i default with
          idealX := (nodes.getD i default).idealX
            - ((nodes.getD j default).idealX - (nodes.getD i default).idealX)
              * pushFactorOf (nodes.getD i default) (nodes.getD j default) * 2,
          idealY := (nodes.getD i default).idealY
            - ((nodes.getD j default).idealY - (nodes.getD i default).idealY)
              * pushFactorOf (nodes.getD i default) (nodes.getD j default) * 2 } := by
    simp only [pushedA]
    congr 1 <;> ring
  rw [harith]
  simp only [pushFactorOf, pairDistance, pairMinDistance]

theorem stepPair_push_onlyB (ups : List (String × ℝ × ℝ)) (nodes : List PD)
    (flag : Bool) (i j : Nat)
    (ha : isFixedPD ups (nodes.getD i default) = true)
    (hb : isFixedPD ups (nodes.getD j default) = false)
    (hov : pairDistance (nodes.getD i default) (nodes.getD j default)
            < pairMinDistance (nodes.getD i default) (nodes.getD j default)
          ∧ pairDistance (nodes.getD i default) (nodes.getD j default) > 0) :
    stepPair ups (nodes, flag) (i, j)
      = (nodes.set j (pushedB (nodes.getD i default) (nodes.getD j default)
          (pushFactorOf (nodes.getD i default) (nodes.getD j default) * 2)), true) := by
  simp only [isFixedPD] at ha hb
  simp only [pairDistance, pairMinDistance] at hov
  simp only [stepPair]
  rw [if_neg (andFalseRight _ _ hb), if_pos hov,
    if_neg (andFalseLeft _ _ (by rw [ha]; rfl)), if_neg (by rw [ha]; simp)]
  have harith : pushedB (nodes.getD i default) (nodes.getD j default)
        (pushFactorOf (nodes.getD i default) (nodes.getD j default) * 2)
      = { nodes.getD j default with
          idealX := (nodes.getD j default).idealX
            + ((nodes.getD j default).idealX - (nodes.getD i default).idealX)
              * pushFactorOf (nodes.getD i default) (nodes.getD j default) * 2,
          idealY := (nodes.getD j default).idealY
            + ((nodes.getD j default).idealY - (nodes.getD i default).idealY)
              * pushFactorOf (nodes.getD i default) (nodes.getD j default) * 2 } := by
    simp only [pushedB]
    congr 1 <;> ring
  rw [harith]
  simp only [pushFactorOf, pairDistance, pairMinDistance]

theorem stepPair_of_flag_false (ups : List (String × ℝ × ℝ)) (st : List PD × Bool)
    (ij : Nat × Nat) (h : (stepPair ups st ij).2 = false) : stepPair ups st ij = st := by
  simp only [stepPair] at h ⊢
  split at h
  next hA => rw [if_pos hA]
  next hA =>
    rw [if_neg hA]
    split at h
    next hB =>
      split at h
      · simp at h
      · split at h <;> simp at h
    next hB => rw [if_neg hB]

theorem foldl_stepPair_of_flag_false (ups : List (String × ℝ × ℝ)) :
    ∀ (l : List (Nat × Nat)) (st : List PD × Bool),
      (l.foldl (stepPair ups) st).2 = false → l.foldl (stepPair ups) st = st := by
  intro l
  induction l with
  | nil => intro st _; rfl
  | cons p rest ih =>
    intro st h
    rw [List.foldl_cons] at h ⊢
    have h1 := ih (stepPair ups st p) h
    rw [h1] at h ⊢
    exact stepPair_of_flag_false ups st p h

theorem innerPass_false_unchanged (ups : List (String × ℝ × ℝ)) (ns : List PD)
    (h : (innerPass ups ns).2 = false) : innerPass ups ns = (ns, false) :=
  foldl_stepPair_of_flag_false ups (pairIndices ns.length) (ns, false) h

theorem resolveLoop_early_exit (ups : List (String × ℝ × ℝ)) (fuel : Nat) (ns : List PD)
    (h : (innerPass ups ns).2 = false) : resolveLoop ups (fuel + 1) ns = ns := by
  have h1 := innerPass_false_unchanged ups ns h
  simp only [resolveLoop, h1]
  rfl

/-- Claim C5.  In static mode, for every ordered pair of the collision
pass: a pair of two fixed nodes is skipped; a pair without positive
overlap is skipped; two movable overlapping nodes are each displaced by
half the overlap along the connecting vector in opposite directions; if
exactly one is movable, only it moves, by the full overlap; and as soon
as an iteration reports no overlapping pair, the pass stops with the
nodes of that iteration (which it did not modify). -/
theorem resolveCollisionsStatically_pair_cases (ups : List (String × ℝ × ℝ))
    (nodes : List PD) (flag : Bool) (i j : Nat) :
    (isFixedPD ups (nodes.getD i default) = true →
      isFixedPD ups (nodes.getD j default) = true →
      stepPair ups (nodes, flag) (i, j) = (nodes, flag))
    ∧ (¬ (pairDistance (nodes.getD i default) (nodes.getD j default)
            < pairMinDistance (nodes.getD i default) (nodes.getD j default)
          ∧ pairDistance (nodes.getD i default) (nodes.getD j default) > 0) →
        stepPair ups (nodes, flag) (i, j) = (nodes, flag))
    ∧ (isFixedPD ups (nodes.getD i default) = false →
      isFixedPD ups (nodes.getD j default) = false →
      (pairDistance (nodes.getD i default) (nodes.getD j default)
          < pairMinDistance (nodes.getD i default) (nodes.getD j default)
        ∧ pairDistance (nodes.getD i default) (nodes.getD j default) > 0) →
      stepPair ups (nodes, flag) (i, j)
        = ((nodes.set i (pushedA (nodes.getD i default) (nodes.getD j default)
              (pushFactorOf (nodes.getD i default) (nodes.getD j default)))).set j
            (pushedB (nodes.getD i default) (nodes.getD j default)
              (pushFactorOf (nodes.getD i default) (nodes.getD j default))), true)
      ∧ displacementNorm (nodes.getD i default)
          (pushedA (nodes.getD i default) (nodes.getD j default)
            (pushFactorOf (nodes.getD i default) (nodes.getD j default)))
        = (pairMinDistance (nodes.getD i default) (nodes.getD j default)
            - pairDistance (nodes.getD i default) (nodes.getD j default)) / 2
      ∧ displacementNorm (nodes.getD j default)
          (pushedB (nodes.getD i default) (nodes.getD j default)
            (pushFactorOf (nodes.getD i default) (nodes.getD j default)))
        = (pairMinDistance (nodes.getD i default) (nodes.getD j default)
            - pairDistance (nodes.getD i default) (nodes.getD j default)) / 2)
    ∧ (isFixedPD ups (nodes.getD i default) = false →
      isFixedPD ups (nodes.getD j default) = true →
      (pairDistance (nodes.getD i default) (nodes.getD j default)
          < pairMinDistance (nodes.getD i default) (nodes.getD j default)
        ∧ pairDistance (nodes.getD i default) (nodes.getD j default) > 0) →
      stepPair ups (nodes, flag) (i, j)
        = (nodes.set i (pushedA (nodes.getD i default) (nodes.getD j default)
            (pushFactorOf (nodes.getD i default) (nodes.getD j default) * 2)), true)
      ∧ displacementNorm (nodes.getD i default)
          (pushedA (nodes.getD i default) (nodes.getD j default)
            (pushFactorOf (nodes.getD i default) (nodes.getD j default) * 2))
        = pairMinDistance (nodes.getD i default) (nodes.getD j default)
            - pairDistance (nodes.getD i default) (nodes.getD j default))
    ∧ (isFixedPD ups (nodes.getD i default) = true →
      isFixedPD ups (nodes.getD j default) = false →
      (pairDistance (nodes.getD i default) (nodes.getD j default)
          < pairMinDistance (nodes.getD i default) (nodes.getD j default)
        ∧ pairDistance (nodes.getD i default) (nodes.getD j default) > 0) →
      stepPair ups (nodes, flag) (i, j)
        = (nodes.set j (pushedB (nodes.getD i default) (nodes.getD j default)
            (pushFactorOf (nodes.getD i default) (nodes.getD j default) * 2)), true)
      ∧ displacementNorm (nodes.getD j default)
          (pushedB (nodes.getD i default) (nodes.getD j default)
            (pushFactorOf (nodes.getD i default) (nodes.getD j default) * 2))
        = pairMinDistance (nodes.getD i default) (nodes.getD j default)
            - pairDistance (nodes.getD i default) (nodes.getD j default))
    ∧ (∀ ns : List PD, (innerPass ups ns).2 = false →
        innerPass ups ns = (ns, false)
        ∧ ∀ fuel : Nat, resolveLoop ups (fuel + 1) ns = ns) := by
  have hfac : ∀ p q : PD,
      (pairDistance p q < pairMinDistance p q ∧ pairDistance p q > 0) →
      pushFactorOf p q * pairDistance p q = (pairMinDistance p q - pairDistance p q) / 2 := by
    intro p q hov
    have hd : pairDistance p q ≠ 0 := ne_of_gt hov.2
    field_simp [pushFactorOf]
    ring
  have hfacpos : ∀ p q : PD,
      (pairDistance p q < pairMinDistance p q ∧ pairDistance p q > 0) →
      0 ≤ pushFactorOf p q := by
    intro p q hov
    have h1 : 0 ≤ pairMinDistance p q - pairDistance p q := by linarith [hov.1]
    have h2 : 0 < pairDistance p q := hov.2
    unfold pushFactorOf
    positivity
  refine ⟨stepPair_skip_bothFixed ups nodes flag i j,
          stepPair_skip_noOverlap ups nodes flag i j, ?_, ?_, ?_, ?_⟩
  · intro ha hb hov
    refine ⟨stepPair_push_both ups nodes flag i j ha hb hov, ?_, ?_⟩
    · rw [displacementNorm_pushedA _ _ _ (hfacpos _ _ hov), hfac _ _ hov]
    · rw [displacementNorm_pushedB _ _ _ (hfacpos _ _ hov), hfac _ _ hov]
  · intro ha hb hov
    refine ⟨stepPair_push_onlyA ups nodes flag i j ha hb hov, ?_⟩
    rw [displacementNorm_pushedA _ _ _ (by
      have := hfacpos _ _ hov
      linarith)]
    have hd : pairDistance (nodes.getD i default) (nodes.getD j default) ≠ 0 :=
      ne_of_gt hov.2
    have := hfac _ _ hov
    nlinarith [this]
  · intro ha hb hov
    refine ⟨stepPair_push_onlyB ups nodes flag i j ha hb hov, ?_⟩
    rw [displacementNorm_pushedB _ _ _ (by
      have := hfacpos _ _ hov
      linarith)]
    have hd : pairDistance (nodes.getD i default) (nodes.getD j default) ≠ 0 :=
      ne_of_gt hov.2
    have := hfac _ _ hov
    nlinarith [this]
  · intro ns h
    exact ⟨innerPass_false_unchanged ups ns h, fun fuel => resolveLoop_early_exit ups fuel ns h⟩

/-- A concrete fixed (level-0) flat record used by the C5 witness. -/
noncomputable def w5A : PD :=
  { id := "a", level := 0, parentId := none, sectorStart := 0, sectorEnd := 0,
    sectorCenter := 0, idealAngle := 0, idealRadius := 0, idealX := 0, idealY := 0,
    ring := 0, x := 0, y := 0, fx := none, fy := none }

/-- A second concrete fixed flat record used by the C5 witness. -/
noncomputable def w5B : PD :=
  { id := "b", level := 0, parentId := none, sectorStart := 0, sectorEnd := 0,
    sectorCenter := 0, idealAngle := 0, idealRadius := 0, idealX := 20, idealY := 0,
    ring := 0, x := 20, y := 0, fx := none, fy := none }

/-- Witness for C5: on a concrete pair of fixed nodes the pass skips the
pair, exactly as the first conjunct of the theorem states. -/
theorem resolveCollisionsStatically_pair_cases_witness :
    stepPair [] ([w5A, w5B], false) (0, 1) = ([w5A, w5B], false) :=
  (resolveCollisionsStatically_pair_cases [] [w5A, w5B] false 0 1).1 rfl rfl

/-- Claim C9.  A pair of nodes whose centres coincide has centre
distance exactly 0, so the displacement branch (which requires
`distance > 0`) never fires: the pair step leaves the state unchanged,
the whole static pass on two such movable nodes is the identity, and
the pair is still overlapping afterwards (its distance is below the
minimum separation), the `distance > 0` guard also being what keeps the
push factor's division by `distance` away from zero. -/
theorem coincident_pair_never_pushed (ups : List (String × ℝ × ℝ)) (p q : PD)
    (flag : Bool) (hx : p.idealX = q.idealX) (hy : p.idealY = q.idealY) :
    pairDistance p q = 0
    ∧ stepPair ups ([p, q], flag) (0, 1) = ([p, q], flag)
    ∧ resolveCollisionsStatically ups [p, q] = [p, q]
    ∧ pairDistance p q < pairMinDistance p q := by
  have hd : pairDistance p q = 0 := by
    simp [pairDistance, hx, hy]
  have hmin : 0 < pairMinDistance p q := by
    have h1 := collisionRadius_pos p.level
    have h2 := collisionRadius_pos q.level
    unfold pairMinDistance
    have : (0 : ℝ) < ((collisionRadius p.level + collisionRadius q.level : ℚ) : ℝ) := by
      exact_mod_cast add_pos h1 h2
    linarith
  have hno : ¬ (pairDistance p q < pairMinDistance p q ∧ pairDistance p q > 0) := by
    rw [hd]
    rintro ⟨-, hc⟩
    exact lt_irrefl 0 hc
  have hskip : ∀ f : Bool, stepPair ups ([p, q], f) (0, 1) = ([p, q], f) := by
    intro f
    exact stepPair_skip_noOverlap ups [p, q] f 0 1 hno
  have hinner : innerPass ups [p, q] = ([p, q], false) := by
    have hpi : pairIndices ([p, q] : List PD).length = [(0, 1)] := by
      simp only [List.length_cons, List.length_nil]
      decide
    simp only [innerPass, hpi, List.foldl_cons, List.foldl_nil]
    exact hskip false
  refine ⟨hd, hskip flag, ?_, by rw [hd]; exact hmin⟩
  have : resolveLoop ups (49 + 1) [p, q] = [p, q] :=
    resolveLoop_early_exit ups 49 [p, q] (by rw [hinner])
  exact this

/-- A concrete movable (level-3) record at the origin for the C9 witness. -/
noncomputable def w9A : PD :=
  { id := "a", level := 3, parentId := some "r", sectorStart := 0, sectorEnd := 0,
    sectorCenter := 0, idealAngle := 0, idealRadius := 0, idealX := 5, idealY := 7,
    ring := 0, x := 5, y := 7, fx := none, fy := none }

/-- A second movable record at the same point for the C9 witness. -/
noncomputable def w9B : PD :=
  { id := "b", level := 3, parentId := some "r", sectorStart := 0, sectorEnd := 0,
    sectorCenter := 0, idealAngle := 0, idealRadius := 0, idealX := 5, idealY := 7,
    ring := 0, x := 5, y := 7, fx := none, fy := none }

/-- Witness for C9 at two concrete coincident movable nodes. -/
theorem coincident_pair_never_pushed_witness :
    pairDistance w9A w9B = 0
    ∧ stepPair [] ([w9A, w9B], false) (0, 1) = ([w9A, w9B], false)
    ∧ resolveCollisionsStatically [] [w9A, w9B] = [w9A, w9B]
    ∧ pairDistance w9A w9B < pairMinDistance w9A w9B :=
  coincident_pair_never_pushed [] w9A w9B false rfl rfl

mutual

theorem containsIdT_eq_findSome (i : String) : ∀ t : PTree,
    containsIdT i t = (findSubT i t).isSome
| .node d cs => by
  simp only [containsIdT, findSubT]
  by_cases h : (d.id == i) = true
  · simp [h]
  · simp only [Bool.not_eq_true] at h
    simp [h, containsIdL_eq_findSome i cs]

theorem containsIdL_eq_findSome (i : String) : ∀ ts : List PTree,
    containsIdL i ts = (findSubL i ts).isSome
| [] => by simp [containsIdL, findSubL]
| t :: ts => by
  simp only [containsIdL, findSubL]
  rw [containsIdT_eq_findSome i t, containsIdL_eq_findSome i ts]
  cases findSubT i t <;> simp

end

theorem translateP_data (dx dy : ℝ) : ∀ t : PTree,
    (translateP dx dy t).data = { t.data with x := t.data.x + dx, y := t.data.y + dy }
| .node d cs => by simp [translateP, PTree.data]

mutual

theorem findSubT_replaceFirst_translate (i : String) (dx dy : ℝ) : ∀ (t u : PTree),
    findSubT i t = some u →
      findSubT i (replaceFirst i (translateP dx dy) t) = some (translateP dx dy u)
| .node d cs, u => by
  intro h
  by_cases hid : (d.id == i) = true
  · simp only [findSubT, hid, if_pos] at h
    simp only [replaceFirst, hid, if_pos]
    rw [← Option.some_inj.mp h]
    simp only [translateP, findSubT]
    rw [if_pos hid]
  · simp only [findSubT] at h
    rw [if_neg hid] at h
    simp only [replaceFirst]
    rw [if_neg hid]
    simp only [findSubT]
    rw [if_neg hid]
    exact findSubL_replaceFirstL_translate i dx dy cs u h

theorem findSubL_replaceFirstL_translate (i : String) (dx dy : ℝ) : ∀ (ts : List PTree) (u : PTree),
    findSubL i ts = some u →
      findSubL i (replaceFirstL i (translateP dx dy) ts) = some (translateP dx dy u)
| [], u => by intro h; simp [findSubL] at h
| t :: ts, u => by
  intro h
  simp only [findSubL] at h
  simp only [replaceFirstL]
  cases hf : findSubT i t with
  | some v =>
    rw [hf] at h
    have hc : containsIdT i t = true := by
      rw [containsIdT_eq_findSome i t, hf]; rfl
    rw [if_pos hc]
    simp only [findSubL]
    rw [findSubT_replaceFirst_translate i dx dy t v hf]
    rw [Option.some_inj.mp h]
  | none =>
    rw [hf] at h
    have hc : containsIdT i t = false := by
      rw [containsIdT_eq_findSome i t, hf]; rfl
    rw [if_neg (by simp [hc])]
    simp only [findSubL, hf]
    exact findSubL_replaceFirstL_translate i dx dy ts u h

end

mutual

theorem flattenP_translateP (dx dy : ℝ) : ∀ t : PTree,
    flattenP (translateP dx dy t)
      = (flattenP t).map (fun p => { p with x := p.x + dx, y := p.y + dy })
| .node d cs => by
  simp only [translateP, flattenP, List.map_cons]
  rw [flattenPL_translatePL dx dy cs]

theorem flattenPL_translatePL (dx dy : ℝ) : ∀ ts : List PTree,
    flattenPL (translatePL dx dy ts)
      = (flattenPL ts).map (fun p => { p with x := p.x + dx, y := p.y + dy })
| [] => by simp [translatePL, flattenPL]
| t :: ts => by
  simp only [translatePL, flattenPL, List.map_append]
  rw [flattenP_translateP dx dy t, flattenPL_translatePL dx dy ts]

end

/-- Claim C10.  `setNodePosition(id, x, y)` on a visible non-root node
replaces (in place) the grabbed subtree by its translation by the delta
`(x - oldX, y - oldY)`: after the call the grabbed node sits at exactly
`(x, y)`, and the flat record list of its subtree is the old list with
every entry (the node and all its descendants) shifted by that same
delta — the subtree moves rigidly. -/
theorem setNodePosition_rigid_subtree (s : EngineState) (t u : PTree) (i : String)
    (X Y : ℝ) (ht : s.tree = some t) (hu : findSubT i t = some u)
    (hl : u.data.level ≠ 0) :
    (setNodePosition i X Y s).tree
      = some (replaceFirst i (translateP (X - u.data.x) (Y - u.data.y)) t)
    ∧ findSubT i (replaceFirst i (translateP (X - u.data.x) (Y - u.data.y)) t)
      = some (translateP (X - u.data.x) (Y - u.data.y) u)
    ∧ (translateP (X - u.data.x) (Y - u.data.y) u).data.x = X
    ∧ (translateP (X - u.data.x) (Y - u.data.y) u).data.y = Y
    ∧ flattenP (translateP (X - u.data.x) (Y - u.data.y) u)
      = (flattenP u).map (fun p =>
          { p with x := p.x + (X - u.data.x), y := p.y + (Y - u.data.y) }) := by
  refine ⟨?_, findSubT_replaceFirst_translate i _ _ t u hu, ?_, ?_,
    flattenP_translateP _ _ u⟩
  · simp only [setNodePosition, ht, hu]
    rw [if_neg hl]
  · rw [translateP_data]
    simp
  · rw [translateP_data]
    simp

/-- Grandchild record of the concrete C10 witness tree. -/
noncomputable def w10b : PTree :=
  .node { id := "b", level := 2, parentId := some "a", sectorStart := 0, sectorEnd := 0,
          sectorCenter := 0, idealAngle := 0, idealRadius := 0, idealX := 30, idealY := 40,
          ring := 0, x := 30, y := 40, fx := none, fy := none } []

/-- Grabbed subtree of the concrete C10 witness tree. -/
noncomputable def w10a : PTree :=
  .node { id := "a", level := 1, parentId := some "r", sectorStart := 0, sectorEnd := 0,
          sectorCenter := 0, idealAngle := 0, idealRadius := 0, idealX := 10, idealY := 20,
          ring := 0, x := 10, y := 20, fx := none, fy := none } [w10b]

/-- Root of the concrete C10 witness tree. -/
noncomputable def w10r : PTree :=
  .node { id := "r", level := 0, parentId := none, sectorStart := 0, sectorEnd := 0,
          sectorCenter := 0, idealAngle := 0, idealRadius := 0, idealX := 0, idealY := 0,
          ring := 0, x := 0, y := 0, fx := none, fy := none } [w10a]

/-- Engine state holding the concrete C10 witness tree. -/
noncomputable def w10s : EngineState :=
  { mode := .static, tree := some w10r, userPositions := [], hasSim := false }

/-- Witness for C10: dragging node "a" of the concrete tree to (100, 50). -/
theorem setNodePosition_rigid_subtree_witness :
    (setNodePosition "a" 100 50 w10s).tree
      = some (replaceFirst "a" (translateP (100 - w10a.data.x) (50 - w10a.data.y)) w10r)
    ∧ findSubT "a" (replaceFirst "a" (translateP (100 - w10a.data.x) (50 - w10a.data.y)) w10r)
      = some (translateP (100 - w10a.data.x) (50 - w10a.data.y) w10a)
    ∧ (translateP (100 - w10a.data.x) (50 - w10a.data.y) w10a).data.x = 100
    ∧ (translateP (100 - w10a.data.x) (50 - w10a.data.y) w10a).data.y = 50
    ∧ flattenP (translateP (100 - w10a.data.x) (50 - w10a.data.y) w10a)
      = (flattenP w10a).map (fun p =>
          { p with x := p.x + (100 - w10a.data.x), y := p.y + (50 - w10a.data.y) }) :=
  setNodePosition_rigid_subtree w10s w10r w10a "a" 100 50 rfl rfl (by decide)

-- ============================================================
-- Claim C3: start-position priority on rebuilds
-- ============================================================

/-- The taxonomy of the first rebuild of the C3 scenario: a root with two
leaf children. -/
def c3root2 : Node := Node.mk "r" [Node.mk "a" [], Node.mk "b" []]

/-- The taxonomy of the second rebuild of the C3 scenario: child `b` is
gone, `a` is still there. -/
def c3root1 : Node := Node.mk "r" [Node.mk "a" []]

/-- `sectorPipeline c3root2 []`, written out (angles in units of π). -/
def c3L2 : LTree :=
  .node ⟨"r", 0, none, 2, 1, 5, 0, 2, 0⟩
    [.node ⟨"a", 1, some "r", 0, 0, 1, -(1/2), 1/2, 0⟩ [],
     .node ⟨"b", 1, some "r", 0, 0, 1, 1/2, 3/2, 1⟩ []]

/-- `sectorPipeline c3root1 []`, written out. -/
def c3L1 : LTree :=
  .node ⟨"r", 0, none, 1, 1, 4, 0, 2, 0⟩
    [.node ⟨"a", 1, some "r", 0, 0, 1, -(1/2), 3/2, 1/2⟩ []]

theorem c3L2_eq : sectorPipeline c3root2 [] = c3L2 := by
  simp [c3root2, c3L2, sectorPipeline, buildLayoutTree, buildNode, buildChildren,
    analyzeNode, analyzeList, assignSectors, assignLevel1Sectors, assignLevel1SectorsGo,
    assignChildSectors, assignChildSectorsNode, assignChildSectorsList, sectorShares,
    sectorSharesGo, minAnglePerChild, LTree.data, LTree.children]
  norm_num

theorem c3L1_eq : sectorPipeline c3root1 [] = c3L1 := by
  simp [c3root1, c3L1, sectorPipeline, buildLayoutTree, buildNode, buildChildren,
    analyzeNode, analyzeList, assignSectors, assignLevel1Sectors, assignLevel1SectorsGo,
    assignChildSectors, assignChildSectorsNode, assignChildSectorsList, sectorShares,
    sectorSharesGo, minAnglePerChild, LTree.data, LTree.children]
  norm_num

/-- Flat record of the root after the first rebuild. -/
noncomputable def c3rP : PD :=
  { id := "r", level := 0, parentId := none, sectorStart := 0, sectorEnd := 2,
    sectorCenter := 0, idealAngle := 0, idealRadius := 0, idealX := 0, idealY := 0,
    ring := 0, x := 0, y := 0, fx := none, fy := none }

/-- Flat record of node `a` after the first rebuild: ideal and actual
position `(430, 0)`. -/
noncomputable def c3aP : PD :=
  { id := "a", level := 1, parentId := some "r", sectorStart := -(1/2), sectorEnd := 1/2,
    sectorCenter := 0, idealAngle := 0, idealRadius := 430, idealX := 430, idealY := 0,
    ring := 0, x := 430, y := 0, fx := none, fy := none }

/-- Flat record of node `b` after the first rebuild: position `(-430, 0)`. -/
noncomputable def c3bP : PD :=
  { id := "b", level := 1, parentId := some "r", sectorStart := 1/2, sectorEnd := 3/2,
    sectorCenter := 1, idealAngle := 1, idealRadius := 430, idealX := -430, idealY := 0,
    ring := 0, x := -430, y := 0, fx := none, fy := none }

/-- The tree of the first rebuild before the static pass, written out. -/
noncomputable def c3P2 : PTree := .node c3rP [.node c3aP [], .node c3bP []]

theorem c3P2_eq : initializeActualPositions (calculateIdealPositions c3L2) = c3P2 := by
  simp only [c3L2, c3P2, c3rP, c3aP, c3bP, calculateIdealPositions, posTree, posForest,
    calcChildCtxs, positionChildrenRadial, mkPD, initializeActualPositions, mapPD, mapPDL,
    LTree.data, List.map_cons, List.map_nil, List.length_cons, List.length_nil]
  norm_num [BASE_DISTANCES, DISTANCE_PER_CHILD, Real.cos_pi, Real.sin_pi]

/-- Flat record of the root in the second rebuild. -/
noncomputable def c3rP1 : PD :=
  { id := "r", level := 0, parentId := none, sectorStart := 0, sectorEnd := 2,
    sectorCenter := 0, idealAngle := 0, idealRadius := 0, idealX := 0, idealY := 0,
    ring := 0, x := 0, y := 0, fx := none, fy := none }

/-- Flat record of node `a` in the second rebuild: fresh ideal position
`(0, 390)`, not the `(430, 0)` of the previous pass. -/
noncomputable def c3aP1 : PD :=
  { id := "a", level := 1, parentId := some "r", sectorStart := -(1/2), sectorEnd := 3/2,
    sectorCenter := 1/2, idealAngle := 1/2, idealRadius := 390, idealX := 0, idealY := 390,
    ring := 0, x := 0, y := 390, fx := none, fy := none }

/-- The tree of the second rebuild before the static pass, written out. -/
noncomputable def c3P1 : PTree := .node c3rP1 [.node c3aP1 []]

theorem c3P1_eq : initializeActualPositions (calculateIdealPositions c3L1) = c3P1 := by
  have hc : Real.cos ((1/2 : ℝ) * Real.pi) = 0 := by
    rw [show (1/2 : ℝ) * Real.pi = Real.pi / 2 by ring]
    exact Real.cos_pi_div_two
  have hs : Real.sin ((1/2 : ℝ) * Real.pi) = 1 := by
    rw [show (1/2 : ℝ) * Real.pi = Real.pi / 2 by ring]
    exact Real.sin_pi_div_two
  simp only [c3L1, c3P1, c3rP1, c3aP1, calculateIdealPositions, posTree, posForest,
    calcChildCtxs, positionChildrenRadial, mkPD, initializeActualPositions, mapPD, mapPDL,
    LTree.data, List.map_cons, List.map_nil, List.length_cons, List.length_nil]
  norm_num [BASE_DISTANCES, DISTANCE_PER_CHILD]
  exact ⟨hc, hs, hc, hs⟩

/-- The flat node list of the first rebuild. -/
noncomputable def c3flat : List PD := [c3rP, c3aP, c3bP]

theorem resolveStatic_of_innerPass_false (ups : List (String × ℝ × ℝ)) (ns : List PD)
    (h : (innerPass ups ns).2 = false) : resolveCollisionsStatically ups ns = ns := by
  have h2 := resolveLoop_early_exit ups 49 ns h
  simpa [resolveCollisionsStatically] using h2

theorem c3_dist_ra : pairDistance c3rP c3aP = 430 := by
  have h : (c3aP.idealX - c3rP.idealX) * (c3aP.idealX - c3rP.idealX)
      + (c3aP.idealY - c3rP.idealY) * (c3aP.idealY - c3rP.idealY) = 430 ^ 2 := by
    norm_num [c3rP, c3aP]
  rw [pairDistance, h]
  exact Real.sqrt_sq (by norm_num)

theorem c3_dist_rb : pairDistance c3rP c3bP = 430 := by
  have h : (c3bP.idealX - c3rP.idealX) * (c3bP.idealX - c3rP.idealX)
      + (c3bP.idealY - c3rP.idealY) * (c3bP.idealY - c3rP.idealY) = 430 ^ 2 := by
    norm_num [c3rP, c3bP]
  rw [pairDistance, h]
  exact Real.sqrt_sq (by norm_num)

theorem c3_dist_ab : pairDistance c3aP c3bP = 860 := by
  have h : (c3bP.idealX - c3aP.idealX) * (c3bP.idealX - c3aP.idealX)
      + (c3bP.idealY - c3aP.idealY) * (c3bP.idealY - c3aP.idealY) = 860 ^ 2 := by
    norm_num [c3aP, c3bP]
  rw [pairDistance, h]
  exact Real.sqrt_sq (by norm_num)

theorem c3_innerPass : innerPass [] c3flat = (c3flat, false) := by
  have s1 : stepPair [] (c3flat, false) (0, 1) = (c3flat, false) := by
    apply stepPair_skip_noOverlap
    have e0 : (c3flat.getD 0 default) = c3rP := rfl
    have e1 : (c3flat.getD 1 default) = c3aP := rfl
    rw [e0, e1, c3_dist_ra]
    have hm : pairMinDistance c3rP c3aP = 220 := by
      norm_num [pairMinDistance, collisionRadius, COLLISION_RADII, c3rP, c3aP]
    rw [hm]
    norm_num
  have s2 : stepPair [] (c3flat, false) (0, 2) = (c3flat, false) := by
    apply stepPair_skip_noOverlap
    have e0 : (c3flat.getD 0 default) = c3rP := rfl
    have e1 : (c3flat.getD 2 default) = c3bP := rfl
    rw [e0, e1, c3_dist_rb]
    have hm : pairMinDistance c3rP c3bP = 220 := by
      norm_num [pairMinDistance, collisionRadius, COLLISION_RADII, c3rP, c3bP]
    rw [hm]
    norm_num
  have s3 : stepPair [] (c3flat, false) (1, 2) = (c3flat, false) := by
    apply stepPair_skip_noOverlap
    have e0 : (c3flat.getD 1 default) = c3aP := rfl
    have e1 : (c3flat.getD 2 default) = c3bP := rfl
    rw [e0, e1, c3_dist_ab]
    have hm : pairMinDistance c3aP c3bP = 230 := by
      norm_num [pairMinDistance, collisionRadius, COLLISION_RADII, c3aP, c3bP]
    rw [hm]
    norm_num
  have hpi : pairIndices c3flat.length = [(0, 1), (0, 2), (1, 2)] := by
    simp only [c3flat, List.length_cons, List.length_nil]
    decide
  simp only [innerPass, hpi, List.foldl_cons, List.foldl_nil, s1, s2, s3]

theorem c3_applyStatic : applyStaticLayout [] c3P2 = c3P2 := by
  have hu : applyUserPosToIdeals [] c3P2 = c3P2 := rfl
  have hsp : staticPre [] c3P2 = c3flat := by
    rw [staticPre, hu]
    rfl
  rw [applyStaticLayout, hsp, hu, resolveStatic_of_innerPass_false [] c3flat (by rw [c3_innerPass])]
  rfl

/-- The engine state of the C3 scenario before any call: static mode, no
tree, empty `userPositions`. -/
def c3s0 : EngineState :=
  { mode := .static, tree := none, userPositions := [], hasSim := false }

theorem c3_first_update : updateNodes c3s0 c3root2 []
    = { c3s0 with tree := some c3P2, hasSim := false } := by
  show initSimulation c3s0 c3root2 [] = _
  show { c3s0 with
      tree := some (applyStaticLayout c3s0.userPositions
        (initializeActualPositions (pipelineP c3root2 []))), hasSim := false } = _
  rw [pipelineP, c3L2_eq, c3P2_eq]
  show { c3s0 with tree := some (applyStaticLayout [] c3P2), hasSim := false } = _
  rw [c3_applyStatic]

/-- Claim C3 (counterexample).  Two consecutive static-mode rebuilds: the
first (root with children `a`, `b`) leaves node `a` at `(430, 0)` and
stores no user position for it; in the second rebuild (`b` removed) the
flat list the collision pass starts from carries `a` at its freshly
computed ideal position `(0, 390)`, not at its position `(430, 0)` from
the immediately prior pass — static mode rebuilds from scratch and
ignores prior positions, so the claimed priority order does not hold
there. -/
theorem updateNodes_static_priority_counterexample :
    (updateNodes c3s0 c3root2 []).tree = some c3P2
    ∧ pdLookup (flattenP c3P2) "a" = some c3aP
    ∧ (c3aP.x, c3aP.y) = (430, 0)
    ∧ upsLookup (updateNodes c3s0 c3root2 []).userPositions "a" = none
    ∧ staticPre (updateNodes c3s0 c3root2 []).userPositions
        (initializeActualPositions (pipelineP c3root1 [])) = [c3rP1, c3aP1]
    ∧ pdLookup [c3rP1, c3aP1] "a" = some c3aP1
    ∧ (c3aP1.idealX, c3aP1.idealY) = (0, 390)
    ∧ (c3aP1.idealX, c3aP1.idealY) ≠ (c3aP.x, c3aP.y) := by
  refine ⟨by rw [c3_first_update], rfl, rfl, by rw [c3_first_update]; rfl, ?_, rfl, rfl, ?_⟩
  · rw [c3_first_update]
    show staticPre [] (initializeActualPositions (pipelineP c3root1 [])) = _
    rw [pipelineP, c3L1_eq, c3P1_eq]
    rfl
  · show ((0 : ℝ), (390 : ℝ)) ≠ ((430 : ℝ), (0 : ℝ))
    intro h
    have := congrArg Prod.fst h
    norm_num at this

/-- Claim C3 (amended).  In simulation mode with a live simulation,
`updateNodes` rebuilds the tree and restores each non-root node's
position with exactly the priority `userPositions` > previous-pass
position > fresh ideal (a `userPositions` hit also overwrites the ideal
position).  In static mode, `updateNodes` always re-initialises from
scratch: the effective starting position of a non-root node is its
`userPositions` entry if present and otherwise its freshly computed
ideal position — the previous pass's positions never enter. -/
theorem updateNodes_position_priority (s : EngineState) (rootNode : Node)
    (e : List String) (told : PTree) (p : PD) (q : ℝ × ℝ)
    (ups oldp : List (String × ℝ × ℝ)) (hl : p.level ≠ 0) :
    (s.mode = .simulation → s.hasSim = true → s.tree = some told →
      updateNodes s rootNode e
        = { s with tree := some (fixLevel0Node (restorePositions s.userPositions
                     ((flattenP told).map (fun r => (r.id, r.x, r.y))) (pipelineP rootNode e))),
                   hasSim := true })
    ∧ (upsLookup ups p.id = some q →
        restorePositions ups oldp (.node p [])
          = .node { p with x := q.1, y := q.2, idealX := q.1, idealY := q.2 } [])
    ∧ (upsLookup ups p.id = none → upsLookup oldp p.id = some q →
        restorePositions ups oldp (.node p []) = .node { p with x := q.1, y := q.2 } [])
    ∧ (upsLookup ups p.id = none → upsLookup oldp p.id = none →
        restorePositions ups oldp (.node p [])
          = .node { p with x := p.idealX, y := p.idealY } [])
    ∧ (s.mode = .static →
        updateNodes s rootNode e
          = { s with tree := some (applyStaticLayout s.userPositions
              (initializeActualPositions (pipelineP rootNode e))), hasSim := false })
    ∧ (upsLookup ups p.id = some q →
        applyUserPosToIdeals ups (.node p [])
          = .node { p with idealX := q.1, idealY := q.2 } [])
    ∧ (upsLookup ups p.id = none →
        applyUserPosToIdeals ups (.node p []) = .node p []) := by
  obtain ⟨mode, tree, upsS, hsim⟩ := s
  refine ⟨?_, ?_, ?_, ?_, ?_, ?_, ?_⟩
  · intro hm hs ht
    simp only at hm hs ht
    subst hm; subst hs; subst ht
    rfl
  · intro h
    simp only [restorePositions, mapPD, mapPDL]
    rw [if_neg hl, h]
  · intro h1 h2
    simp only [restorePositions, mapPD, mapPDL]
    rw [if_neg hl, h1, h2]
  · intro h1 h2
    simp only [restorePositions, mapPD, mapPDL]
    rw [if_neg hl, h1, h2]
  · intro hm
    simp only at hm
    subst hm
    rfl
  · intro h
    simp only [applyUserPosToIdeals, mapPD, mapPDL]
    rw [if_neg hl, h]
  · intro h
    simp only [applyUserPosToIdeals, mapPD, mapPDL]
    rw [if_neg hl, h]

/-- Witness for the amended C3: the previous-pass branch of the restore
loop on a concrete node, and a concrete static-mode call reducing to a
fresh re-initialisation. -/
theorem updateNodes_position_priority_witness :
    restorePositions [] [("a", 3, 4)] (.node c3aP [])
      = .node { c3aP with x := (3 : ℝ), y := (4 : ℝ) } []
    ∧ updateNodes c3s0 c3root1 []
      = { c3s0 with tree := some (applyStaticLayout c3s0.userPositions
          (initializeActualPositions (pipelineP c3root1 []))), hasSim := false } :=
  ⟨(updateNodes_position_priority c3s0 c3root1 [] c3P2 c3aP (3, 4) [] [("a", 3, 4)]
      (by decide)).2.2.1 rfl rfl,
   (updateNodes_position_priority c3s0 c3root1 [] c3P2 c3aP (3, 4) [] [("a", 3, 4)]
      (by decide)).2.2.2.2.1 rfl⟩

-- ============================================================
-- Claim C2: the root's position across engine operations
-- ============================================================

/-- The position of the tree's root node, if a tree exists. -/
def rootPosOf (s : EngineState) : Option (ℝ × ℝ) :=
  s.tree.map fun t => (t.data.x, t.data.y)

theorem mapPD_data (f : PD → PD) : ∀ t : PTree, (mapPD f t).data = f t.data
| .node _ _ => rfl

theorem replaceFirst_data_of_ne (i : String) (f : PTree → PTree) (d : PD) (cs : List PTree)
    (h : (d.id == i) = false) : (replaceFirst i f (.node d cs)).data = d := by
  simp only [replaceFirst]
  rw [if_neg (by simp [h])]
  rfl

theorem root_id_ne_target (t u : PTree) (i : String) (hu : findSubT i t = some u)
    (hl : u.data.level ≠ 0) (h0 : t.data.level = 0) : (t.data.id == i) = false := by
  obtain ⟨d, cs⟩ := t
  by_cases hid : (d.id == i) = true
  · simp only [findSubT, hid, if_pos] at hu
    have : u = .node d cs := (Option.some_inj.mp hu).symm
    rw [this] at hl
    exact absurd h0 hl
  · simpa using hid

theorem getD_set_ne : ∀ (l : List PD) (n k : Nat) (v : PD), k ≠ n →
    (l.set n v).getD k default = l.getD k default
| [], _, _, _, _ => rfl
| _ :: _, 0, 0, _, h => absurd rfl h
| _ :: _, 0, _ + 1, _, _ => rfl
| _ :: _, _ + 1, 0, _, _ => rfl
| _ :: l, n + 1, k + 1, v, h => getD_set_ne l n k v (by omega)

theorem stepPair_preserves_level0 (ups : List (String × ℝ × ℝ)) (st : List PD × Bool)
    (ij : Nat × Nat) (k : Nat) (h0 : (st.1.getD k default).level = 0) :
    (stepPair ups st ij).1.getD k default = st.1.getD k default := by
  simp only [stepPair]
  split
  · rfl
  next hA =>
    split
    · split
      next hC =>
        rw [Bool.and_eq_true, Bool.not_eq_eq_eq_not, Bool.not_eq_eq_eq_not] at hC
        simp only [Bool.not_true] at hC
        by_cases hk1 : k = ij.1
        · exfalso
          have := hC.1
          rw [← hk1, Bool.or_eq_false_iff] at this
          have hlv : ((st.1.getD k default).level == 0) = false := this.1
          rw [h0] at hlv
          simp at hlv
        · by_cases hk2 : k = ij.2
          · exfalso
            have := hC.2
            rw [← hk2, Bool.or_eq_false_iff] at this
            have hlv : ((st.1.getD k default).level == 0) = false := this.1
            rw [h0] at hlv
            simp at hlv
          · rw [getD_set_ne _ _ _ _ hk2, getD_set_ne _ _ _ _ hk1]
      next hC =>
        split
        next hD =>
          rw [Bool.not_eq_eq_eq_not] at hD
          simp only [Bool.not_true] at hD
          by_cases hk1 : k = ij.1
          · exfalso
            rw [← hk1, Bool.or_eq_false_iff] at hD
            have hlv : ((st.1.getD k default).level == 0) = false := hD.1
            rw [h0] at hlv
            simp at hlv
          · rw [getD_set_ne _ _ _ _ hk1]
        next hD =>
          by_cases hk2 : k = ij.2
          · exfalso
            have hBf : (((st.1.getD ij.2 default).level == 0)
                || upsHas ups (st.1.getD ij.2 default).id) = false := by
              rcases Bool.eq_false_or_eq_true (((st.1.getD ij.2 default).level == 0)
                  || upsHas ups (st.1.getD ij.2 default).id) with hb | hb
              · exfalso
                rcases Bool.eq_false_or_eq_true (((st.1.getD ij.1 default).level == 0)
                    || upsHas ups (st.1.getD ij.1 default).id) with ha | ha
                · exact hA (by rw [ha, hb]; rfl)
                · exact hD (by rw [ha]; rfl)
              · exact hb
            rw [← hk2, Bool.or_eq_false_iff] at hBf
            have hlv : ((st.1.getD k default).level == 0) = false := hBf.1
            rw [h0] at hlv
            simp at hlv
          · rw [getD_set_ne _ _ _ _ hk2]
    · rfl

theorem stepPair_length (ups : List (String × ℝ × ℝ)) (st : List PD × Bool)
    (ij : Nat × Nat) : (stepPair ups st ij).1.length = st.1.length := by
  simp only [stepPair]
  split
  · rfl
  · split
    · split
      · simp [List.length_set]
      · split <;> simp [List.length_set]
    · rfl

theorem foldl_stepPair_preserves_level0 (ups : List (String × ℝ × ℝ)) (k : Nat) :
    ∀ (l : List (Nat × Nat)) (st : List PD × Bool), (st.1.getD k default).level = 0 →
      (l.foldl (stepPair ups) st).1.getD k default = st.1.getD k default := by
  intro l
  induction l with
  | nil => intro st _; rfl
  | cons p rest ih =>
    intro st h
    rw [List.foldl_cons]
    have h1 := stepPair_preserves_level0 ups st p k h
    rw [ih (stepPair ups st p) (by rw [h1]; exact h), h1]

theorem foldl_stepPair_length (ups : List (String × ℝ × ℝ)) :
    ∀ (l : List (Nat × Nat)) (st : List PD × Bool),
      (l.foldl (stepPair ups) st).1.length = st.1.length := by
  intro l
  induction l with
  | nil => intro st; rfl
  | cons p rest ih =>
    intro st
    rw [List.foldl_cons, ih, stepPair_length]

theorem innerPass_preserves_level0 (ups : List (String × ℝ × ℝ)) (ns : List PD) (k : Nat)
    (h : (ns.getD k default).level = 0) :
    (innerPass ups ns).1.getD k default = ns.getD k default :=
  foldl_stepPair_preserves_level0 ups k (pairIndices ns.length) (ns, false) h

theorem innerPass_length (ups : List (String × ℝ × ℝ)) (ns : List PD) :
    (innerPass ups ns).1.length = ns.length :=
  foldl_stepPair_length ups (pairIndices ns.length) (ns, false)

theorem resolveLoop_preserves_level0 (ups : List (String × ℝ × ℝ)) (k : Nat) :
    ∀ (fuel : Nat) (ns : List PD), (ns.getD k default).level = 0 →
      (resolveLoop ups fuel ns).getD k default = ns.getD k default := by
  intro fuel
  induction fuel with
  | zero => intro ns _; rfl
  | succ fuel ih =>
    intro ns h
    simp only [resolveLoop]
    split
    · have h1 := innerPass_preserves_level0 ups ns k h
      rw [ih (innerPass ups ns).1 (by rw [h1]; exact h), h1]
    · exact innerPass_preserves_level0 ups ns k h

theorem resolveLoop_length (ups : List (String × ℝ × ℝ)) :
    ∀ (fuel : Nat) (ns : List PD), (resolveLoop ups fuel ns).length = ns.length := by
  intro fuel
  induction fuel with
  | zero => intro ns; rfl
  | succ fuel ih =>
    intro ns
    simp only [resolveLoop]
    split
    · rw [ih, innerPass_length]
    · exact innerPass_length ups ns

theorem resolve_preserves_level0 (ups : List (String × ℝ × ℝ)) (ns : List PD) (k : Nat)
    (h : (ns.getD k default).level = 0) :
    (resolveCollisionsStatically ups ns).getD k default = ns.getD k default :=
  resolveLoop_preserves_level0 ups k 50 ns h

theorem resolve_length (ups : List (String × ℝ × ℝ)) (ns : List PD) :
    (resolveCollisionsStatically ups ns).length = ns.length :=
  resolveLoop_length ups 50 ns

theorem applyStaticLayout_root (ups : List (String × ℝ × ℝ)) (d : PD) (cs : List PTree)
    (h0 : d.level = 0) :
    (applyStaticLayout ups (.node d cs)).data = { d with x := d.idealX, y := d.idealY } := by
  have hA : applyUserPosToIdeals ups (.node d cs)
      = .node d (mapPDL (fun p =>
          if p.level = 0 then p
          else match upsLookup ups p.id with
            | some q => { p with idealX := q.1, idealY := q.2 }
            | none => p) cs) := by
    simp only [applyUserPosToIdeals, mapPD]
    rw [if_pos h0]
  have hpre : staticPre ups (.node d cs)
      = d :: flattenPL (mapPDL (fun p =>
          if p.level = 0 then p
          else match upsLookup ups p.id with
            | some q => { p with idealX := q.1, idealY := q.2 }
            | none => p) cs) := by
    rw [staticPre, hA]
    rfl
  have hget : (resolveCollisionsStatically ups (staticPre ups (.node d cs))).getD 0 default
      = d := by
    rw [resolve_preserves_level0 ups _ 0 (by rw [hpre]; exact h0), hpre]
    rfl
  have hlen : 0 < (resolveCollisionsStatically ups (staticPre ups (.node d cs))).length := by
    rw [resolve_length, hpre]
    simp
  obtain ⟨h1, tl, hcons⟩ : ∃ h1 tl,
      resolveCollisionsStatically ups (staticPre ups (.node d cs)) = h1 :: tl := by
    cases hc : resolveCollisionsStatically ups (staticPre ups (.node d cs)) with
    | nil => rw [hc] at hlen; simp at hlen
    | cons a b => exact ⟨a, b, rfl⟩
  have hhead : h1 = d := by
    rw [hcons] at hget
    exact hget
  have hlook : pdLookup (resolveCollisionsStatically ups (staticPre ups (.node d cs))) d.id
      = some d := by
    rw [hcons, hhead]
    simp only [pdLookup]
    exact List.find?_cons_of_pos _ (by simp)
  rw [applyStaticLayout, hA, setPositionsToIdeal, writeIdealsFromList]
  rw [mapPD_data, mapPD_data]
  simp only [PTree.data]
  rw [hlook]

theorem analyzeNode_level : ∀ t : LTree, (analyzeNode t).data.level = t.data.level := by
  intro t
  cases t with
  | node d cs =>
    cases cs with
    | nil => simp [analyzeNode, LTree.data]
    | cons c cs => simp [analyzeNode, LTree.data]

theorem assignSectors_data_level : ∀ t : LTree, (assignSectors t).data.level = t.data.level := by
  intro t
  cases t with
  | node d cs => simp [assignSectors, LTree.data]

theorem pipelineP_root (rootNode : Node) (e : List String) :
    (pipelineP rootNode e).data.level = 0
    ∧ (pipelineP rootNode e).data.idealX = 0 ∧ (pipelineP rootNode e).data.idealY = 0
    ∧ (pipelineP rootNode e).data.x = 0 ∧ (pipelineP rootNode e).data.y = 0 := by
  have hlvl : (sectorPipeline rootNode e).data.level = 0 := by
    rw [sectorPipeline, assignSectors_data_level, analyzeNode_level]
    cases rootNode with
    | mk rid rcs => simp [buildLayoutTree, buildNode, LTree.data]
  rw [pipelineP, calculateIdealPositions]
  cases hS : sectorPipeline rootNode e with
  | node d cs =>
    rw [hS] at hlvl
    simp only [LTree.data] at hlvl
    simp [posTree, mkPD, PTree.data, LTree.data, hlvl]

theorem fixLevel0Node_data (t : PTree) (h : t.data.level = 0) :
    (fixLevel0Node t).data = { t.data with fx := some t.data.idealX,
                                           fy := some t.data.idealY,
                                           x := t.data.idealX,
                                           y := t.data.idealY } := by
  rw [fixLevel0Node, mapPD_data, if_pos h]

theorem restorePositions_data (ups oldp : List (String × ℝ × ℝ)) (t : PTree)
    (h : t.data.level = 0) : (restorePositions ups oldp t).data = t.data := by
  rw [restorePositions, mapPD_data, if_pos h]

theorem updateNodes_root (s : EngineState) (rootNode : Node) (e : List String) :
    rootPosOf (updateNodes s rootNode e) = some (0, 0) := by
  cases hP : pipelineP rootNode e with
  | node d cs =>
    have hfacts := pipelineP_root rootNode e
    rw [hP] at hfacts
    simp only [PTree.data] at hfacts
    obtain ⟨hl, hix, hiy, hx0, hy0⟩ := hfacts
    obtain ⟨mode, tree, ups, hsim⟩ := s
    have hstat : ∀ ups2 : List (String × ℝ × ℝ),
        (applyStaticLayout ups2 (initializeActualPositions (pipelineP rootNode e))).data.x = 0
        ∧ (applyStaticLayout ups2
            (initializeActualPositions (pipelineP rootNode e))).data.y = 0 := by
      intro ups2
      rw [hP]
      have he : initializeActualPositions (PTree.node d cs)
          = PTree.node { d with x := d.idealX, y := d.idealY }
              (mapPDL (fun p => { p with x := p.idealX, y := p.idealY }) cs) := rfl
      rw [he, applyStaticLayout_root ups2 _ _ (by simpa using hl)]
      simp [hix, hiy]
    have hsimInit : rootPosOf (initSimulation ⟨LayoutMode.simulation, tree, ups, hsim⟩
        rootNode e) = some (0, 0) := by
      simp only [initSimulation, rootPosOf, Option.map]
      rw [fixLevel0Node_data _ (by rw [hP]; exact hl), hP]
      simp [initializeActualPositions, mapPD, PTree.data, hix, hiy]
    cases mode with
    | static =>
      simp only [updateNodes, initSimulation, rootPosOf, Option.map]
      rw [(hstat ups).1, (hstat ups).2]
    | simulation =>
      cases hsim with
      | false => exact hsimInit
      | true =>
        cases tree with
        | none => exact hsimInit
        | some told =>
          have hun : updateNodes ⟨LayoutMode.simulation, some told, ups, true⟩ rootNode e
              = { mode := LayoutMode.simulation,
                  tree := some (fixLevel0Node (restorePositions ups
                    ((flattenP told).map (fun p => (p.id, p.x, p.y))) (pipelineP rootNode e))),
                  userPositions := ups, hasSim := true } := rfl
          rw [hun]
          simp only [rootPosOf, Option.map]
          have hrd : (restorePositions ups ((flattenP told).map (fun p => (p.id, p.x, p.y)))
              (pipelineP rootNode e)).data = d := by
            rw [restorePositions_data _ _ _ (by rw [hP]; exact hl), hP]
            rfl
          rw [fixLevel0Node_data _ (by rw [hrd]; exact hl), hrd]
          simp [hix, hiy]

theorem replaceFirst_root_data (i : String) (f : PTree → PTree) (t u : PTree)
    (hu : findSubT i t = some u) (hl : u.data.level ≠ 0) (h0 : t.data.level = 0) :
    (replaceFirst i f t).data = t.data := by
  obtain ⟨d, cs⟩ := t
  exact replaceFirst_data_of_ne i f d cs (root_id_ne_target (.node d cs) u i hu hl h0)

theorem setNodePosition_rootPos (i : String) (X Y : ℝ) (s : EngineState) (t : PTree)
    (ht : s.tree = some t) (h0 : t.data.level = 0) :
    rootPosOf (setNodePosition i X Y s) = rootPosOf s := by
  cases hu : findSubT i t with
  | none => simp only [setNodePosition, ht, hu]
  | some u =>
    simp only [setNodePosition, ht, hu]
    by_cases hl : u.data.level = 0
    · rw [if_pos hl]
    · rw [if_neg hl]
      simp only [rootPosOf, ht, Option.map]
      rw [replaceFirst_root_data i _ t u hu hl h0]

theorem fixNode_rootPos (i : String) (s : EngineState) (t : PTree)
    (ht : s.tree = some t) (h0 : t.data.level = 0) :
    rootPosOf (fixNode i s) = rootPosOf s := by
  cases hu : findSubT i t with
  | none => simp only [fixNode, ht, hu]
  | some u =>
    simp only [fixNode, ht, hu]
    by_cases hl : u.data.level = 0
    · rw [if_pos hl]
    · rw [if_neg hl]
      simp only [rootPosOf, ht, Option.map]
      rw [replaceFirst_root_data i _ t u hu hl h0]

theorem unfixNode_rootPos (i : String) (s : EngineState) (t : PTree)
    (ht : s.tree = some t) (h0 : t.data.level = 0) :
    rootPosOf (unfixNode i s) = rootPosOf s := by
  cases hu : findSubT i t with
  | none => simp only [unfixNode, ht, hu]
  | some u =>
    simp only [unfixNode, ht, hu]
    by_cases hl : u.data.level = 0
    · rw [if_pos hl]
    · rw [if_neg hl]
      simp only [rootPosOf, ht, Option.map]
      rw [replaceFirst_root_data i _ t u hu hl h0]

theorem releaseNode_rootPos (i : String) (s : EngineState) (t : PTree)
    (ht : s.tree = some t) (h0 : t.data.level = 0) :
    rootPosOf (releaseNode i s) = rootPosOf s := by
  cases hu : findSubT i t with
  | none => simp only [releaseNode, ht, hu]
  | some u =>
    simp only [releaseNode, ht, hu]
    by_cases hl : u.data.level = 0
    · rw [if_pos hl]
    · rw [if_neg hl]
      simp only [rootPosOf, ht, Option.map]
      rw [replaceFirst_root_data i _ t u hu hl h0]

theorem resetNodePosition_rootPos (i : String) (s : EngineState) (t : PTree)
    (ht : s.tree = some t) (hne : (t.data.id == i) = false) :
    rootPosOf (resetNodePosition i s) = rootPosOf s := by
  cases hu : findSubT i t with
  | none => simp only [resetNodePosition, ht, hu, rootPosOf, Option.map]
  | some u =>
    simp only [resetNodePosition, ht, hu]
    simp only [rootPosOf, ht, Option.map]
    obtain ⟨d, cs⟩ := t
    rw [replaceFirst_data_of_ne i _ d cs hne]
    rfl

theorem resetUserPositions_rootPos (s : EngineState) :
    rootPosOf (resetUserPositions s) = rootPosOf s := rfl

theorem wobble_rootPos (s : EngineState) : rootPosOf (wobble s) = rootPosOf s := rfl

theorem tick_rootPos (δ : String → ℝ × ℝ) (s : EngineState) (t : PTree)
    (ht : s.tree = some t) (hfx : t.data.fx = some t.data.x)
    (hfy : t.data.fy = some t.data.y) :
    rootPosOf (tick δ s) = rootPosOf s := by
  simp only [tick]
  split
  · simp only [ht, rootPosOf, Option.map]
    rw [mapPD_data]
    simp only [tickNode, hfx, hfy]
  · rfl

theorem resetToOriginalPositions_rootPos (s : EngineState) (t : PTree)
    (ht : s.tree = some t) (h0 : t.data.level = 0) :
    rootPosOf (resetToOriginalPositions s) = rootPosOf s := by
  simp only [resetToOriginalPositions, ht, rootPosOf, Option.map]
  rw [mapPD_data, if_pos h0]

theorem ringRow_ids (px py r sa st : ℝ) :
    ∀ (l : List String) (idx : Nat) (x : String × ℝ × ℝ × ℝ),
      x ∈ ringRow px py r sa st idx l → x.1 ∈ l
| [], _, x, hx => by simp [ringRow] at hx
| c :: cs, idx, x, hx => by
  simp only [ringRow, List.mem_cons] at hx
  rcases hx with h | h
  · rw [h]
    exact List.mem_cons_self c cs
  · exact List.mem_cons_of_mem c (ringRow_ids px py r sa st cs (idx + 1) x h)

theorem ringPositions_ids (px py br mcs rs : ℝ) :
    ∀ (n : Nat) (l : List String) (ri : Nat), l.length ≤ n →
      ∀ x ∈ ringPositions px py br mcs rs ri l, x.1 ∈ l := by
  intro n
  induction n with
  | zero =>
    intro l ri hl x hx
    match l with
    | [] => simp [ringPositions] at hx
  | succ n ih =>
    intro l ri hl x hx
    match l, hl with
    | [], _ => simp [ringPositions] at hx
    | c :: rest, hl =>
      simp only [ringPositions] at hx
      rcases List.mem_append.mp hx with h | h
      · exact List.take_subset _ _ (ringRow_ids _ _ _ _ _ _ _ _ h)
      · have hk : 1 ≤ min (max 1 ⌊2 * Real.pi * (br + (ri : ℝ) * rs) / mcs⌋₊)
            (c :: rest).length :=
          le_min (le_max_left _ _) (by simp)
        have hdl : ((c :: rest).drop (min (max 1 ⌊2 * Real.pi * (br + (ri : ℝ) * rs) / mcs⌋₊)
            (c :: rest).length)).length ≤ n := by
          rw [List.length_drop]
          simp only [List.length_cons] at hl ⊢
          omega
        exact List.drop_subset _ _ (ih _ (ri + 1) hdl x h)

theorem applyPositions_root_data (t0 : PTree) :
    ∀ (l : List (String × ℝ × ℝ × ℝ)) (st : PTree × List (String × ℝ × ℝ)),
      st.1.data = t0.data → (∀ p ∈ l, (t0.data.id == p.1) = false) →
      ((l.foldl (fun st pos =>
        match findSubT pos.1 st.1 with
        | none => st
        | some (.node d cs) =>
          let newX := pos.2.1
          let newY := pos.2.2.1
          let d' := { d with x := newX, y := newY, idealX := newX, idealY := newY }
          let grandchildRadius := (COLLISION_RADII_opt (min (d.level + 1) 4)).getD 65
          let childRadius := (COLLISION_RADII_opt d.level).getD 100
          let dist2 := ((childRadius + grandchildRadius + 2 : ℚ) : ℝ)
          let angles2 := grandFanAngles pos.2.2.2 cs.length
          let sub := arrangeGrandForest newX newY dist2 angles2 cs
          (replaceFirst pos.1 (fun _ => .node d' sub.1) st.1,
            sub.2.foldl (fun a e => upsSet a e.1 e.2.1 e.2.2) (upsSet st.2 pos.1 newX newY))
        ) st).1).data = t0.data := by
  intro l
  induction l with
  | nil => intro st h _; exact h
  | cons p rest ih =>
    intro st h hl
    rw [List.foldl_cons]
    have hstep : ∀ st2 : PTree × List (String × ℝ × ℝ), st2.1.data = t0.data →
        ((match findSubT p.1 st2.1 with
          | none => st2
          | some (.node d cs) =>
            let newX := p.2.1
            let newY := p.2.2.1
            let d' := { d with x := newX, y := newY, idealX := newX, idealY := newY }
            let grandchildRadius := (COLLISION_RADII_opt (min (d.level + 1) 4)).getD 65
            let childRadius := (COLLISION_RADII_opt d.level).getD 100
            let dist2 := ((childRadius + grandchildRadius + 2 : ℚ) : ℝ)
            let angles2 := grandFanAngles p.2.2.2 cs.length
            let sub := arrangeGrandForest newX newY dist2 angles2 cs
            (replaceFirst p.1 (fun _ => .node d' sub.1) st2.1,
              sub.2.foldl (fun a e => upsSet a e.1 e.2.1 e.2.2) (upsSet st2.2 p.1 newX newY))
          : PTree × List (String × ℝ × ℝ)).1).data = t0.data := by
      intro st2 h2
      obtain ⟨t2, u2⟩ := st2
      obtain ⟨d0, cs0⟩ := t2
      simp only [PTree.data] at h2
      cases hf : findSubT p.1 (PTree.node d0 cs0) with
      | none => simp only [hf]; simpa [PTree.data] using h2
      | some u =>
        obtain ⟨d, cs⟩ := u
        simp only [hf]
        have hne : (d0.id == p.1) = false := by
          have hid : d0.id = t0.data.id := by rw [h2]; rfl
          rw [hid]
          exact hl p (List.mem_cons_self p rest)
        have := replaceFirst_data_of_ne p.1
          (fun _ => PTree.node { d with x := p.2.1, y := p.2.2.1,
                                        idealX := p.2.1, idealY := p.2.2.1 }
            (arrangeGrandForest p.2.1 p.2.2.1
              ((((COLLISION_RADII_opt d.level).getD 100
                  + (COLLISION_RADII_opt (min (d.level + 1) 4)).getD 65 + 2 : ℚ) : ℝ))
              (grandFanAngles p.2.2.2 cs.length) cs).1) d0 cs0 hne
        rw [this]
        simpa [PTree.data] using h2
    exact ih _ (hstep st h) (fun q hq => hl q (List.mem_cons_of_mem p hq))

theorem fm_fold_root_data (px py r : ℝ) (tid : String) :
    ∀ (l : List (String × ℝ)) (acc : PTree), acc.data.id = tid →
      (∀ e ∈ l, (tid == e.1) = false) →
      (l.foldl (fun acc e =>
          replaceFirst e.1 (fun v =>
            match v with
            | .node d cs =>
              .node { d with x := px + Real.cos e.2 * r,
                             y := py + Real.sin e.2 * r } cs) acc) acc).data = acc.data := by
  intro l
  induction l with
  | nil => intro acc _ _; rfl
  | cons e rest ih =>
    intro acc hid hl
    rw [List.foldl_cons]
    obtain ⟨d0, cs0⟩ := acc
    simp only [PTree.data] at hid
    have hne : (d0.id == e.1) = false := by
      rw [hid]
      exact hl e (List.mem_cons_self e rest)
    have hstep := replaceFirst_data_of_ne e.1
      (fun v =>
        match v with
        | .node d cs =>
          PTree.node { d with x := px + Real.cos e.2 * r,
                              y := py + Real.sin e.2 * r } cs) d0 cs0 hne
    rw [ih _ (by rw [hstep]; exact hid) (fun q hq => hl q (List.mem_cons_of_mem e hq)), hstep]
    rfl

theorem arrangeChildrenCircularFocusMode_rootPos (pid : String) (childIds : List String)
    (s : EngineState) (t : PTree) (ht : s.tree = some t)
    (hci : t.data.id ∉ childIds) :
    rootPosOf (arrangeChildrenCircularFocusMode pid childIds s) = rootPosOf s := by
  cases hp : findSubT pid t with
  | none => simp only [arrangeChildrenCircularFocusMode, ht, hp]
  | some parent =>
    simp only [arrangeChildrenCircularFocusMode, ht, hp]
    by_cases hce : childIds = []
    · rw [if_pos hce]
    · rw [if_neg hce]
      simp only [rootPosOf, Option.map]
      rw [fm_fold_root_data _ _ _ t.data.id _ t rfl ?hl]
      case hl =>
        intro e he
        rcases Bool.eq_false_or_eq_true (t.data.id == e.1) with hb | hb
        · exfalso
          have hmem : e.1 ∈ childIds := by
            obtain ⟨e1, e2⟩ := e
            exact (List.of_mem_zip he).1
          rw [eq_of_beq hb] at hci
          exact hci hmem
        · exact hb
      rw [ht]

theorem arrangeChildrenCircular_rootPos (pid : String) (childIds : List String)
    (s : EngineState) (t : PTree) (ht : s.tree = some t)
    (hci : t.data.id ∉ childIds) :
    rootPosOf (arrangeChildrenCircular pid childIds s) = rootPosOf s := by
  cases hp : findSubT pid t with
  | none => simp only [arrangeChildrenCircular, ht, hp]
  | some parent =>
    simp only [arrangeChildrenCircular, ht, hp]
    by_cases hce : childIds = []
    · rw [if_pos hce]
    · rw [if_neg hce]
      simp only [rootPosOf, Option.map]
      have key : ∀ positions : List (String × ℝ × ℝ × ℝ),
          (∀ p ∈ positions, p.1 ∈ childIds) →
          ((applyPositionsAndArrangeGrandchildren positions t s.userPositions).1).data
            = t.data := by
        intro positions hsub
        apply applyPositions_root_data t positions (t, s.userPositions) rfl
        intro p hp2
        rcases Bool.eq_false_or_eq_true (t.data.id == p.1) with hb | hb
        · exfalso
          rw [eq_of_beq hb] at hci
          exact hci (hsub p hp2)
        · exact hb
      split
      next hcase =>
        rw [key _ ?hfan]
        case hfan =>
          intro p hp2
          simp only [fanAwayPositions] at hp2
          exact ringRow_ids _ _ _ _ _ _ _ _ hp2
        rw [ht]
      next hcase =>
        rw [key _ ?hring]
        case hring =>
          intro p hp2
          exact ringPositions_ids _ _ _ _ _ childIds.length childIds 0 le_rfl p hp2
        rw [ht]

/-- Claim C2 (amended).  Every rebuild (`updateNodes`, any mode, any
inputs, any prior state) leaves the root of the new tree at exactly
`(0, 0)`; the drag protocol (`setNodePosition`, `fixNode`, `unfixNode`,
`releaseNode`), the resets, `wobble`, simulation ticks (the root being
pinned by `fx`/`fy`), focus-mode exit (`resetToOriginalPositions`) and
the arrange commands (whose moved child ids never include the root) all
leave the root's position unchanged.  Focus-mode entry is the exception:
it deliberately moves the root far to the left (see the
counterexample). -/
theorem root_position_invariant (s : EngineState) (t : PTree) (rootNode : Node)
    (e : List String) (i pid : String) (X Y : ℝ) (δ : String → ℝ × ℝ)
    (childIds : List String)
    (ht : s.tree = some t) (h0 : t.data.level = 0) :
    rootPosOf (updateNodes s rootNode e) = some (0, 0)
    ∧ rootPosOf (setNodePosition i X Y s) = rootPosOf s
    ∧ rootPosOf (fixNode i s) = rootPosOf s
    ∧ rootPosOf (unfixNode i s) = rootPosOf s
    ∧ rootPosOf (releaseNode i s) = rootPosOf s
    ∧ ((t.data.id == i) = false → rootPosOf (resetNodePosition i s) = rootPosOf s)
    ∧ rootPosOf (resetUserPositions s) = rootPosOf s
    ∧ rootPosOf (wobble s) = rootPosOf s
    ∧ (t.data.fx = some t.data.x → t.data.fy = some t.data.y →
        rootPosOf (tick δ s) = rootPosOf s)
    ∧ rootPosOf (resetToOriginalPositions s) = rootPosOf s
    ∧ (t.data.id ∉ childIds →
        rootPosOf (arrangeChildrenCircular pid childIds s) = rootPosOf s)
    ∧ (t.data.id ∉ childIds →
        rootPosOf (arrangeChildrenCircularFocusMode pid childIds s) = rootPosOf s) :=
  ⟨updateNodes_root s rootNode e,
   setNodePosition_rootPos i X Y s t ht h0,
   fixNode_rootPos i s t ht h0,
   unfixNode_rootPos i s t ht h0,
   releaseNode_rootPos i s t ht h0,
   fun hne => resetNodePosition_rootPos i s t ht hne,
   resetUserPositions_rootPos s,
   wobble_rootPos s,
   fun hfx hfy => tick_rootPos δ s t ht hfx hfy,
   resetToOriginalPositions_rootPos s t ht h0,
   fun hci => arrangeChildrenCircular_rootPos pid childIds s t ht hci,
   fun hci => arrangeChildrenCircularFocusMode_rootPos pid childIds s t ht hci⟩

/-- Claim C2 (counterexample).  On the concrete tree of the C3 scenario
(root `r` at `(0, 0)`), entering focus mode on level-1 node `a` pins the
root at `x = -(350 + max(400, childRadius + 180)) = -750 ≠ 0`: the root
does not stay at the origin across every operation sequence. -/
theorem focus_entry_moves_root_counterexample :
    c3P2.data.level = 0 ∧ c3P2.data.x = 0 ∧ c3P2.data.y = 0
    ∧ (calculateFocusModeLayout c3root2 "a" 1 [] (fun _ => (0, 0)) c3P2).data.x = -750
    ∧ (calculateFocusModeLayout c3root2 "a" 1 [] (fun _ => (0, 0)) c3P2).data.x ≠ 0 := by
  have hdef : (calculateFocusModeLayout c3root2 "a" 1 [] (fun _ => (0, 0)) c3P2).data.x
      = -(350 + max 400 ((100 : ℝ) + 180)) := rfl
  have hval : (calculateFocusModeLayout c3root2 "a" 1 [] (fun _ => (0, 0)) c3P2).data.x
      = -750 := by
    rw [hdef, max_eq_left (by norm_num : (100 : ℝ) + 180 ≤ 400)]
    norm_num
  exact ⟨rfl, rfl, rfl, hval, by rw [hval]; norm_num⟩

/-- A simulation-mode engine state holding the concrete C3 tree, used to
instantiate the root-invariant theorem. -/
noncomputable def c2s : EngineState :=
  { mode := .simulation, tree := some c3P2, userPositions := [], hasSim := true }

/-- Witness for the amended C2 at a concrete state: a rebuild places the
root at the origin, a drag step and a store reset leave it unchanged. -/
theorem root_position_invariant_witness :
    rootPosOf (updateNodes c2s c3root1 []) = some (0, 0)
    ∧ rootPosOf (setNodePosition "a" 77 88 c2s) = rootPosOf c2s
    ∧ rootPosOf (resetNodePosition "a" c2s) = rootPosOf c2s :=
  ⟨(root_position_invariant c2s c3P2 c3root1 [] "a" "a" 77 88 (fun _ => (0, 0)) []
      rfl rfl).1,
   (root_position_invariant c2s c3P2 c3root1 [] "a" "a" 77 88 (fun _ => (0, 0)) []
      rfl rfl).2.1,
   (root_position_invariant c2s c3P2 c3root1 [] "a" "a" 77 88 (fun _ => (0, 0)) []
      rfl rfl).2.2.2.2.2.1 rfl⟩

-- ============================================================
-- Claim C8: seven children, full circle, gap, radius
-- ============================================================

/-- The uniform ring angles `arrangeChildrenCircular` computes for seven
children that fit one ring: start at `-π/2`, step `2π/7`, no gap. -/
noncomputable def c8angles : List ℝ :=
  [-(Real.pi / 2), -(Real.pi / 2) + 2 * Real.pi / 7,
   -(Real.pi / 2) + 2 * (2 * Real.pi / 7), -(Real.pi / 2) + 3 * (2 * Real.pi / 7),
   -(Real.pi / 2) + 4 * (2 * Real.pi / 7), -(Real.pi / 2) + 5 * (2 * Real.pi / 7),
   -(Real.pi / 2) + 6 * (2 * Real.pi / 7)]

/-- Claim C8 (counterexample).  `arrangeChildrenCircular` on a level-1
parent with 7 children takes the ring branch (the fan branch needs fewer
than 4 children); with the branch's own parameters (base ring radius
`parentRadius + childRadius + 2 = 212`, spacing `childRadius * 1.6 = 160`,
parent at `(430, 0)` with the root at the origin behind it) the ring
capacity is 8, so all 7 children land on ONE full circle at uniform
spacing `2π/7` starting at `-π/2` — every consecutive angular distance is
equal, so no gap is reserved anywhere, and the child at index 5 sits at
`13π/14 ∈ (160°, 200°)`, exactly on the side facing the parent chain
(the root lies at angle `180°` from the parent). -/
theorem arrangeChildrenCircular_uniform_ring_counterexample :
    (¬ (((1 : ℕ) = 1 ∨ (1 : ℕ) = 2)
        ∧ (["c1", "c2", "c3", "c4", "c5", "c6", "c7"] : List String).length < 4))
    ∧ ((((COLLISION_RADII_opt 1).getD 100 + (COLLISION_RADII_opt (min (1 + 1) 4)).getD 65
          + 2 : ℚ) : ℝ)) = 212
    ∧ (((if (1 : ℕ) = 1 then ((COLLISION_RADII_opt (min (1 + 1) 4)).getD 65) * (16/10)
          else ((COLLISION_RADII_opt (min (1 + 1) 4)).getD 65) * 2 + 20 : ℚ) : ℝ)) = 160
    ∧ (ringPositions 430 0 212 160 110 0 ["c1", "c2", "c3", "c4", "c5", "c6", "c7"]).map
        (fun p => p.2.2.2) = c8angles
    ∧ (∀ k, k < 6 → c8angles.getD (k + 1) 0 - c8angles.getD k 0 = 2 * Real.pi / 7)
    ∧ (160 * Real.pi / 180 < c8angles.getD 5 0 ∧ c8angles.getD 5 0 < 200 * Real.pi / 180)
    ∧ (160 * Real.pi / 180 < Real.pi ∧ Real.pi < 200 * Real.pi / 180) := by
  refine ⟨by decide, by norm_num [COLLISION_RADII_opt], by norm_num [COLLISION_RADII_opt],
    ?_, ?_, ?_, ?_⟩
  · have hcap : max 1 ⌊(2 * Real.pi * ((212 : ℝ) + ((0 : ℕ) : ℝ) * 110)) / 160⌋₊ = 8 := by
      have h1 : ((212 : ℝ) + ((0 : ℕ) : ℝ) * 110) = 212 := by norm_num
      rw [h1]
      have hlo := Real.pi_gt_3141592
      have hhi := Real.pi_lt_315
      have hfl : ⌊(2 * Real.pi * (212 : ℝ)) / 160⌋₊ = 8 := by
        rw [Nat.floor_eq_iff (by positivity)]
        constructor
        · push_cast
          nlinarith
        · push_cast
          nlinarith
      rw [hfl]
      exact max_eq_right (by norm_num)
    simp only [ringPositions, hcap, c8angles]
    norm_num
    simp only [ringRow, ringPositions]
    norm_num
  · intro k hk
    interval_cases k <;> simp [c8angles] <;> ring
  · constructor
    · simp only [c8angles, List.getD]
      have := Real.pi_pos
      norm_num
      linarith
    · simp only [c8angles, List.getD]
      have := Real.pi_pos
      norm_num
      linarith
  · have := Real.pi_pos
    constructor <;> linarith

/-- Claim C8 (amended).  The full-circle-with-gap placement for more than
5 children belongs to the focus-mode arrangement: every angle
`arrangeChildrenCircularFocusMode` uses stays outside the open gap band
`(160°, 200°)` — the side where the focus layout puts the parent chain —
and its radius is at least `count · 90 / (2π)`. -/
theorem arrangeFocusMode_gap_and_radius (count : Nat) (parentRadius childRadius : ℚ)
    (h : 5 < count) :
    (∀ a ∈ fmAngles count, a < 160 * Real.pi / 180 ∨ 200 * Real.pi / 180 ≤ a)
    ∧ ((count : ℝ) * 90) / (2 * Real.pi) ≤ fmRadius parentRadius childRadius count := by
  constructor
  · intro a ha
    rw [fmAngles, if_neg (by omega)] at ha
    simp only [List.mem_map, List.mem_range] at ha
    obtain ⟨i, hi, rfl⟩ := ha
    have hpi := Real.pi_pos
    split
    next hg => right; linarith
    next hg => left; linarith [lt_of_not_le hg]
  · rw [fmRadius, if_neg (by omega)]
    exact le_max_right _ _

/-- Witness for the amended C8 at 7 children of a focused level-1 node. -/
theorem arrangeFocusMode_gap_and_radius_witness :
    (∀ a ∈ fmAngles 7, a < 160 * Real.pi / 180 ∨ 200 * Real.pi / 180 ≤ a)
    ∧ (((7 : ℕ) : ℝ) * 90) / (2 * Real.pi) ≤ fmRadius 110 100 7 :=
  arrangeFocusMode_gap_and_radius 7 110 100 (by norm_num)
